import Mathlib

/-!
Verification of the segregated-free-list dynamic memory allocator in
`src/malloc/mm.c` (boundary-tag blocks, 12 power-of-two size buckets,
first-fit allocation, boundary-tag coalescing).

The allocator is shallowly embedded: the simulated heap is a byte-addressed
memory `Nat → Nat` together with the allocator globals (`heap_listp`,
`seg_free`) and the arena bounds maintained by `memlib` (`mem_sbrk`,
`mem_heap_lo`, `mem_heap_hi`).  Every C function is translated statement by
statement; 32-bit header/footer words and 64-bit link pointers are read and
written little-endian through the byte memory, so aliasing between words and
pointer slots behaves exactly as in the C program.  `size_t` arithmetic that
can wrap is taken modulo 2^64; the `(int)` cast in `find_bucket` is modelled
as two's-complement truncation to 32 bits.  Loops (the free-list scans of
`find_fit` and the heap validator) receive an explicit fuel argument; an
exhausted fuel and a C null-pointer dereference are both modelled as `none`.
-/

namespace MM

/-! ## Byte-addressed memory

The byte array is encoded as a single natural number in base 256: the byte
at address `a` is digit `a`.  Reads and writes of an `n`-byte little-endian
field at address `p` are then plain arithmetic, so the whole memory always
evaluates to a numeral. -/

/-- Read the `n`-byte little-endian field at byte address `p`. -/
def loadBytes (m p n : Nat) : Nat := m / 256 ^ p % 256 ^ n

/-- Store the `n` low-order bytes of `v` little-endian at byte addresses
`p, …, p + n - 1`: the digits below `p` and from `p + n` up are kept, the
`n` digits in between are replaced. -/
def storeBytes (m p n v : Nat) : Nat :=
  m % 256 ^ p + v % 256 ^ n * 256 ^ p + m / 256 ^ (p + n) * 256 ^ (p + n)

/-! ## The allocator state

`mem` is the simulated arena plus the page holding the bucket table; `lo`
and `brk` delimit the bytes obtained so far (`mem_heap_lo`, and
`mem_heap_hi = brk - 1`); `maxAddr` is the point at which `mem_sbrk`
reports exhaustion.  `heap_listp` and `seg_free` are the two globals of
`mm.c` (`0` stands for the C null pointer). -/
structure Heap where
  mem : Nat
  lo : Nat
  brk : Nat
  maxAddr : Nat
  heap_listp : Nat
  seg_free : Nat

/-- Grow the arena: `mem_sbrk` from `memlib` returns the old break and
fails (returns `(void * ) -1`, modelled by `none`) when the arena would
exceed `maxAddr`. -/
def mem_sbrk (h : Heap) (incr : Nat) : Heap × Option Nat :=
  if h.maxAddr < h.brk + incr then (h, none)
  else ({ h with brk := h.brk + incr }, some h.brk)

/-! ## The layout macros of mm.c

`WSIZE = 4`, `DSIZE = 8`, `CHUNKSIZE = 170`, `BUCKETS = 12`; the numbers
appear literally below. -/

/-- PACK(size, alloc) = size | alloc. -/
def PACK (size alloc : Nat) : Nat := size ||| alloc

/-- GET(p): read the 32-bit word at byte address `p`. -/
def GET (h : Heap) (p : Nat) : Nat := loadBytes h.mem p 4

/-- PUT(p, val): write the 32-bit word at byte address `p`. -/
def PUT (h : Heap) (p v : Nat) : Heap := { h with mem := storeBytes h.mem p 4 v }

/-- GET_SIZE(p) = GET(p) & ~0x7: the word with its low three bits cleared,
which for a 32-bit word is `w / 8 * 8`. -/
def GET_SIZE (h : Heap) (p : Nat) : Nat := GET h p / 8 * 8

/-- GET_ALLOC(p) = GET(p) & 0x1, i.e. `w % 2`. -/
def GET_ALLOC (h : Heap) (p : Nat) : Nat := GET h p % 2

/-- HDRP(bp) = bp - WSIZE. -/
def HDRP (bp : Nat) : Nat := bp - 4

/-- FTRP(bp) = bp + GET_SIZE(HDRP(bp)) - DSIZE. -/
def FTRP (h : Heap) (bp : Nat) : Nat := bp + GET_SIZE h (HDRP bp) - 8

/-- NEXT_BLKP(bp) = bp + GET_SIZE(bp - WSIZE). -/
def NEXT_BLKP (h : Heap) (bp : Nat) : Nat := bp + GET_SIZE h (bp - 4)

/-- PREV_BLKP(bp) = bp - GET_SIZE(bp - DSIZE). -/
def PREV_BLKP (h : Heap) (bp : Nat) : Nat := bp - GET_SIZE h (bp - 8)

/-- NEXT_FREE(bp): the 64-bit successor link stored at `bp + DSIZE`. -/
def NEXT_FREE (h : Heap) (bp : Nat) : Nat := loadBytes h.mem (bp + 8) 8

/-- PREV_FREE(bp): the 64-bit predecessor link stored at `bp`. -/
def PREV_FREE (h : Heap) (bp : Nat) : Nat := loadBytes h.mem bp 8

/-- Assignment NEXT_FREE(bp) = v. -/
def setNextFree (h : Heap) (bp v : Nat) : Heap :=
  { h with mem := storeBytes h.mem (bp + 8) 8 v }

/-- Assignment PREV_FREE(bp) = v. -/
def setPrevFree (h : Heap) (bp v : Nat) : Heap :=
  { h with mem := storeBytes h.mem bp 8 v }

/-- Read of the bucket head `seg_free[i]` (an 8-byte pointer slot at the
start of the first page obtained from `mem_sbrk`). -/
def segGet (h : Heap) (i : Nat) : Nat := loadBytes h.mem (h.seg_free + 8 * i) 8

/-- Assignment `seg_free[i] = v`. -/
def segSet (h : Heap) (i v : Nat) : Heap :=
  { h with mem := storeBytes h.mem (h.seg_free + 8 * i) 8 v }

/-! ## find_bucket -/

/-- Value of the C cast `(int)size` applied to a `size_t`: truncation to the
low 32 bits read as a two's-complement signed integer. -/
def intCast (n : Nat) : Int :=
  if n % 2 ^ 32 < 2 ^ 31 then ((n % 2 ^ 32 : Nat) : Int)
  else ((n % 2 ^ 32 : Nat) : Int) - 2 ^ 32

/-- find_bucket: `bucket = 0; for (i = 0; i < BUCKETS; i++) if (bsize >=
(1 << (i + 4))) bucket = i; return bucket;` with `bsize = (int)size`.
The shift `1 << (i + 4)` is the `int` value `2 ^ (i + 4)`. -/
def find_bucket (size : Nat) : Nat :=
  (List.range 12).foldl
    (fun bucket i => if (2 ^ (i + 4) : Int) ≤ intCast size then i else bucket) 0

/-! ## Free-list insertion and removal -/

/-- insert_free: push `bp` to the front of the bucket selected by
`find_bucket(GET_SIZE(HDRP(bp)))`. -/
def insert_free (h : Heap) (bp : Nat) : Heap :=
  let bsize := find_bucket (GET_SIZE h (HDRP bp))
  let h2 :=
    if segGet h bsize = 0 then
      setNextFree (setPrevFree h bp 0) bp 0
    else
      let hA := setPrevFree h (segGet h bsize) bp
      let hB := setNextFree hA bp (segGet hA bsize)
      setPrevFree hB bp 0
  segSet h2 bsize bp

/-- remove_free: detach `bp` from its bucket, with the four cases (sole
element, head, tail, interior) of the C code. -/
def remove_free (h : Heap) (bp : Nat) : Heap :=
  let bucket := find_bucket (GET_SIZE h (HDRP bp))
  if PREV_FREE h bp = 0 ∧ NEXT_FREE h bp = 0 then
    segSet h bucket 0
  else if PREV_FREE h bp = 0 then
    let h1 := setPrevFree h (NEXT_FREE h bp) 0
    segSet h1 bucket (NEXT_FREE h1 bp)
  else if NEXT_FREE h bp = 0 then
    setNextFree h (PREV_FREE h bp) 0
  else
    let prev := PREV_FREE h bp
    let next := NEXT_FREE h bp
    setPrevFree (setNextFree h prev next) next prev

/-! ## Coalescing -/

/-- coalesce: boundary-tag coalescing, dispatched on the allocation bits of
the two arena neighbours, followed by the common `insert_free`.  Each
memory address is computed at the program point where the corresponding C
macro expansion is evaluated. -/
def coalesce (h : Heap) (bp : Nat) : Heap × Nat :=
  let prev_alloc := GET_ALLOC h (FTRP h (PREV_BLKP h bp))
  let next_alloc := GET_ALLOC h (HDRP (NEXT_BLKP h bp))
  let size := GET_SIZE h (HDRP bp)
  let step : Heap × Nat :=
    if prev_alloc ≠ 0 ∧ next_alloc ≠ 0 then           -- Case 1
      (h, bp)
    else if prev_alloc ≠ 0 ∧ next_alloc = 0 then      -- Case 2
      let size := size + GET_SIZE h (HDRP (NEXT_BLKP h bp))
      let h1 := remove_free h (NEXT_BLKP h bp)
      let h2 := PUT h1 (HDRP bp) (PACK size 0)
      let h3 := PUT h2 (FTRP h2 bp) (PACK size 0)
      (h3, bp)
    else if prev_alloc = 0 ∧ next_alloc ≠ 0 then      -- Case 3
      let size := size + GET_SIZE h (HDRP (PREV_BLKP h bp))
      let h1 := remove_free h (PREV_BLKP h bp)
      let h2 := PUT h1 (FTRP h1 bp) (PACK size 0)
      let h3 := PUT h2 (HDRP (PREV_BLKP h2 bp)) (PACK size 0)
      (h3, PREV_BLKP h3 bp)
    else                                              -- Case 4
      let size := size + GET_SIZE h (HDRP (PREV_BLKP h bp))
                       + GET_SIZE h (FTRP h (NEXT_BLKP h bp))
      let h1 := remove_free h (PREV_BLKP h bp)
      let h2 := remove_free h1 (NEXT_BLKP h1 bp)
      let h3 := PUT h2 (HDRP (PREV_BLKP h2 bp)) (PACK size 0)
      let h4 := PUT h3 (FTRP h3 (NEXT_BLKP h3 bp)) (PACK size 0)
      (h4, PREV_BLKP h4 bp)
  (insert_free step.1 step.2, step.2)

/-! ## Placement and fitting -/

/-- Unsigned 64-bit subtraction `a - b` of two `size_t` values (wraps modulo
2^64), for `a < 2^64`. -/
def usub64 (a b : Nat) : Nat := (a + (2 ^ 64 - b % 2 ^ 64)) % 2 ^ 64

/-- place: detach `bp`; split when the remainder `csize - asize` (a
`size_t` difference, hence wrapping) is at least `3 * DSIZE = 24`,
re-inserting the free remainder; otherwise allocate the whole block. -/
def place (h : Heap) (bp asize : Nat) : Heap :=
  let csize := GET_SIZE h (HDRP bp)
  let h1 := remove_free h bp
  if 24 ≤ usub64 csize asize then
    let h2 := PUT h1 (HDRP bp) (PACK asize 1)
    let h3 := PUT h2 (FTRP h2 bp) (PACK asize 1)
    let bp2 := NEXT_BLKP h3 bp
    let h4 := PUT h3 (HDRP bp2) (PACK (usub64 csize asize) 0)
    let h5 := PUT h4 (FTRP h4 bp2) (PACK (usub64 csize asize) 0)
    insert_free h5 bp2
  else
    let h2 := PUT h1 (HDRP bp) (PACK csize 1)
    PUT h2 (FTRP h2 bp) (PACK csize 1)

/-- One bucket scan of find_fit: follow NEXT_FREE links until null
(`some none`: no fit in this bucket) or a block with
`asize ≤ GET_SIZE(HDRP(bp))` is found (`some (some bp)`); `none` means the
fuel ran out, i.e. the C loop would not have terminated within `fuel`
steps. -/
def scan_list (h : Heap) (asize : Nat) : Nat → Nat → Option (Option Nat)
  | fuel, bp =>
    if bp = 0 then some none
    else
      match fuel with
      | 0 => none
      | f + 1 =>
        if asize ≤ GET_SIZE h (HDRP bp) then some (some bp)
        else scan_list h asize f (NEXT_FREE h bp)

/-- Outer loop of find_fit: scan buckets `i, i+1, …, 11`.  The first
argument counts the remaining loop iterations down structurally; starting
it at `12` (with any initial `i`) covers every iteration the C loop can
perform, because `i` increases by one per iteration and the loop stops as
soon as `12 ≤ i`. -/
def find_fit_from (h : Heap) (asize fuel : Nat) : Nat → Nat → Option (Option Nat)
  | 0, _ => some none
  | k + 1, i =>
    if 12 ≤ i then some none
    else
      match scan_list h asize fuel (segGet h i) with
      | none => none
      | some (some bp) => some (some bp)
      | some none => find_fit_from h asize fuel k (i + 1)

/-- find_fit: start at `find_bucket((int)asize)` and scan upward.  (The
`int` is converted back to `size_t` on the call, which round-trips the
value, so this equals `find_bucket asize`.) -/
def find_fit (h : Heap) (asize fuel : Nat) : Option (Option Nat) :=
  find_fit_from h asize fuel 12 (find_bucket asize)

/-! ## Arena growth and initialization -/

/-- extend_heap: round the word count up to an even number of words, grow
the arena, write the free block header/footer and the new epilogue, and
coalesce with the old tail block.  `none` when `mem_sbrk` fails. -/
def extend_heap (h : Heap) (words : Nat) : Heap × Option Nat :=
  let size := (if words % 2 = 1 then (words + 1) * 4 else words * 4) % 2 ^ 64
  match mem_sbrk h size with
  | (h1, none) => (h1, none)
  | (h1, some bp) =>
    let h2 := PUT h1 (HDRP bp) (PACK size 0)
    let h3 := PUT h2 (FTRP h2 bp) (PACK size 0)
    let h4 := PUT h3 (HDRP (NEXT_BLKP h3 bp)) (PACK 0 1)
    let r := coalesce h4 bp
    (r.1, some r.2)

/-- Zero `seg_free[0] … seg_free[n-1]`. -/
def setBuckets (h : Heap) : Nat → Heap
  | 0 => h
  | n + 1 => segSet (setBuckets h n) n 0

/-- mm_init: obtain `4 * WSIZE + BUCKETS * DSIZE = 112` bytes, zero the
bucket table, write padding, prologue header/footer and epilogue, and
extend the heap by `CHUNKSIZE / WSIZE = 42` words.  Returns `false` for the
C result `-1`; a failing first `mem_sbrk` leaves `heap_listp = (char * )-1`
exactly as the C assignment does. -/
def mm_init (h : Heap) : Heap × Bool :=
  match mem_sbrk h 112 with
  | (h1, none) => ({ h1 with heap_listp := 2 ^ 64 - 1 }, false)
  | (h1, some base) =>
    let h2 := { h1 with heap_listp := base, seg_free := base }
    let h3 := setBuckets h2 12
    let hl := base + 96
    let h4 := PUT h3 hl 0
    let h5 := PUT h4 (hl + 4) (PACK 8 1)
    let h6 := PUT h5 (hl + 8) (PACK 8 1)
    let h7 := PUT h6 (hl + 12) (PACK 0 1)
    let h8 := { h7 with heap_listp := hl + 8 }
    match extend_heap h8 (170 / 4) with
    | (h9, none) => (h9, false)
    | (h9, some _) => (h9, true)

/-! ## malloc, free, realloc -/

/-- Adjusted block size computed by malloc: `3 * DSIZE = 24` when
`size <= DSIZE`, else `DSIZE * ((size + DSIZE + (DSIZE-1)) / DSIZE)` in
`size_t` arithmetic (the sum `size + 15` wraps modulo 2^64). -/
def adjust_size (size : Nat) : Nat :=
  if size ≤ 8 then 24 else 8 * ((size + 8 + 7) % 2 ^ 64 / 8)

/-- malloc: lazy init, spurious-request check, size adjustment, first-fit
search, and on failure an arena extension by
`max(asize, CHUNKSIZE) / WSIZE` words followed by placement.  The result
pointer `0` is the C null; `none` means the fuel for the free-list scans
ran out. -/
def mm_malloc (h0 : Heap) (size : Nat) (fuel : Nat) : Option (Heap × Nat) :=
  let h := if h0.heap_listp = 0 then (mm_init h0).1 else h0
  if size = 0 then some (h, 0)
  else
    let asize := adjust_size size
    match find_fit h asize fuel with
    | none => none
    | some (some bp) => some (place h bp asize, bp)
    | some none =>
      let extendsize := max asize 170
      match extend_heap h (extendsize / 4) with
      | (h1, none) => some (h1, 0)
      | (h1, some bp) => some (place h1 bp asize, bp)

/-- free: null is a no-op; otherwise read the size (before the lazy-init
check, as the C code does), re-tag header and footer as free, and then
either insert directly — when the bucket chosen for the block is currently
empty — or coalesce (which ends by inserting). -/
def mm_free (h0 : Heap) (bp : Nat) : Heap :=
  if bp = 0 then h0
  else
    let size := GET_SIZE h0 (HDRP bp)
    let h := if h0.heap_listp = 0 then (mm_init h0).1 else h0
    let h1 := PUT h (HDRP bp) (PACK size 0)
    let h2 := PUT h1 (FTRP h1 bp) (PACK size 0)
    let bindex := find_bucket size
    if segGet h2 bindex = 0 then insert_free h2 bp
    else (coalesce h2 bp).1

/-- realloc: `size = 0` frees and returns null; a null `ptr` is a plain
malloc; otherwise malloc the new size, copy
`oldsize = GET_SIZE(HDRP(ptr))`, clipped to `size`, bytes with `memcpy`,
free the old block and return the new pointer.  The third component of the
result records the byte count passed to `memcpy` (`0` on the paths that do
not copy); on malloc failure the original block is left untouched and null
is returned. -/
def mm_realloc (h : Heap) (ptr size fuel : Nat) : Option (Heap × Nat × Nat) :=
  if size = 0 then some (mm_free h ptr, 0, 0)
  else if ptr = 0 then (mm_malloc h size fuel).map (fun r => (r.1, r.2, 0))
  else
    match mm_malloc h size fuel with
    | none => none
    | some (h1, newptr) =>
      if newptr = 0 then some (h1, 0, 0)
      else
        let oldsize := GET_SIZE h1 (HDRP ptr)
        let copied := if size < oldsize then size else oldsize
        some (mm_free h1 ptr, newptr, copied)

/-! ## The heap validator (mm_checkheap and its helpers)

Each `printf` diagnostic of the C validator is counted instead of printed;
the validator never returns a `Heap`, so by construction it mutates no
allocator state. -/

/-- Violation counts produced by `check_block` for one block: header/footer
mismatch, bad size, two consecutive free blocks, block pointer out of the
arena bounds. -/
structure BlockReport where
  hfErr : Nat
  sizeErr : Nat
  adjFree : Nat
  oobErr : Nat
deriving DecidableEq

def BlockReport.zero : BlockReport := ⟨0, 0, 0, 0⟩

def BlockReport.add (a b : BlockReport) : BlockReport :=
  ⟨a.hfErr + b.hfErr, a.sizeErr + b.sizeErr, a.adjFree + b.adjFree,
   a.oobErr + b.oobErr⟩

/-- check_block: the four diagnostics for a single block. -/
def check_block (h : Heap) (bp : Nat) : BlockReport :=
  let header := GET_SIZE h (HDRP bp)
  let footer := GET_SIZE h (FTRP h bp)
  { hfErr := if header ≠ footer ∨ GET_ALLOC h (HDRP bp) ≠ GET_ALLOC h (FTRP h bp)
             then 1 else 0
    sizeErr := if header % 8 ≠ 0 ∨ header < 8 then 1 else 0
    adjFree := if GET_ALLOC h (HDRP bp) = 0 ∧ GET_ALLOC h (HDRP (NEXT_BLKP h bp)) = 0
               then 1 else 0
    oobErr := if h.brk - 1 < bp ∨ bp < h.lo then 1 else 0 }

/-- The block loop of mm_checkheap: `for (bp = heap_listp;
GET_SIZE(HDRP(bp)) > 0; bp = NEXT_BLKP(bp)) check_block(bp);`.  Returns the
summed report and the final `bp` (used by the epilogue check); `none` when
the fuel runs out. -/
def check_blocks (h : Heap) : Nat → Nat → Option (BlockReport × Nat)
  | 0, bp => if GET_SIZE h (HDRP bp) = 0 then some (BlockReport.zero, bp) else none
  | f + 1, bp =>
    if GET_SIZE h (HDRP bp) = 0 then some (BlockReport.zero, bp)
    else
      (check_blocks h f (NEXT_BLKP h bp)).map
        (fun r => ((check_block h bp).add r.1, r.2))

/-- Loop body of cycle_check.  The tortoise advances one link per
iteration; the body first advances the hare by two links — each advance
dereferences NEXT_FREE of the current hare, so a null hare (or a null
intermediate pointer) is a null-pointer dereference, modelled as `none` —
and then compares.  `some c` counts the `Cycle detected` diagnostics. -/
def cycle_check_run (h : Heap) : Nat → Nat → Nat → Option Nat
  | 0, _, _ => none
  | f + 1, tortoise, hare =>
    if tortoise = 0 then some 0
    else
      if hare = 0 then none
      else
        let mid := NEXT_FREE h hare
        if mid = 0 then none
        else
          let hare2 := NEXT_FREE h mid
          match cycle_check_run h f (NEXT_FREE h tortoise) hare2 with
          | none => none
          | some c => some ((if tortoise = hare2 then 1 else 0) + c)

/-- cycle_check: tortoise and hare both start at `bp`. -/
def cycle_check (h : Heap) (fuel bp : Nat) : Option Nat :=
  cycle_check_run h fuel bp bp

/-- Violation counts for the seg-list loop of mm_checkheap: broken
prev/next links, a block stored under the wrong bucket, and an allocated
block found in a free list.  Note that the C code applies `GET_SIZE` and
`GET_ALLOC` to `flp` itself (the payload address, where the PREV_FREE link
lives), not to `HDRP(flp)`. -/
structure SegReport where
  linkErr : Nat
  bucketErr : Nat
  allocErr : Nat
deriving DecidableEq

def SegReport.zero : SegReport := ⟨0, 0, 0⟩

def SegReport.add (a b : SegReport) : SegReport :=
  ⟨a.linkErr + b.linkErr, a.bucketErr + b.bucketErr, a.allocErr + b.allocErr⟩

/-- One iteration of the seg-list loop for node `flp` of bucket `i`. -/
def seg_node_check (h : Heap) (i flp : Nat) : SegReport :=
  { linkErr :=
      (if NEXT_FREE h flp ≠ 0 ∧ PREV_FREE h (NEXT_FREE h flp) ≠ flp then 1 else 0) +
      (if PREV_FREE h flp ≠ 0 ∧ NEXT_FREE h (PREV_FREE h flp) ≠ flp then 1 else 0)
    bucketErr := if find_bucket (GET_SIZE h flp) ≠ i then 1 else 0
    allocErr := if GET_ALLOC h flp ≠ 0 then 1 else 0 }

/-- The seg-list loop over one bucket. -/
def seg_walk (h : Heap) (i : Nat) : Nat → Nat → Option SegReport
  | 0, flp => if flp = 0 then some SegReport.zero else none
  | f + 1, flp =>
    if flp = 0 then some SegReport.zero
    else
      (seg_walk h i f (NEXT_FREE h flp)).map ((seg_node_check h i flp).add ·)

/-- The per-bucket phase of mm_checkheap: cycle_check first, then the
walk. -/
def seg_bucket_check (h : Heap) (fuel i : Nat) : Option (Nat × SegReport) := do
  let c ← cycle_check h fuel (segGet h i)
  let r ← seg_walk h i fuel (segGet h i)
  pure (c, r)

/-- The bucket loop `for (i = 0; i < BUCKETS; i++)` of mm_checkheap,
starting at bucket `i`, with a structural countdown of the remaining
iterations (started at `12`, which bounds them for every initial `i`). -/
def seg_phase_from (h : Heap) (fuel : Nat) : Nat → Nat → Option (Nat × SegReport)
  | 0, _ => some (0, SegReport.zero)
  | k + 1, i =>
    if 12 ≤ i then some (0, SegReport.zero)
    else do
      let (c, r) ← seg_bucket_check h fuel i
      let (c2, r2) ← seg_phase_from h fuel k (i + 1)
      pure (c + c2, r.add r2)

def seg_phase (h : Heap) (fuel : Nat) : Option (Nat × SegReport) :=
  seg_phase_from h fuel 12 0

/-- mm_checkheap: prologue check, block loop, epilogue check, then the
bucket loop (cycle check and list walk per bucket).  Results: prologue
error flag, block report, epilogue error flag, cycle-message count and seg
report; `none` when a loop exhausts its fuel or cycle_check dereferences a
null pointer. -/
def mm_checkheap (h : Heap) (fuel : Nat) :
    Option (Nat × BlockReport × Nat × Nat × SegReport) := do
  let prologueErr :=
    if GET_SIZE h (HDRP h.heap_listp) ≠ 8 ∨ GET_ALLOC h (HDRP h.heap_listp) = 0
    then 1 else 0
  let (blocks, last) ← check_blocks h fuel h.heap_listp
  let epilogueErr :=
    if GET_SIZE h (HDRP last) ≠ 0 ∨ GET_ALLOC h (HDRP last) = 0 then 1 else 0
  let (cycles, seg) ← seg_phase h fuel
  pure (prologueErr, blocks, epilogueErr, cycles, seg)

/-! ## Abstract view of a bucket list

`freeChain` extracts the null-terminated chain of nodes starting at `bp`
as a list of addresses (`none` when the chain does not reach null within
`fuel` links); `chains` concatenates the chains of buckets `i, …, 11` in
the scan order of find_fit. -/

def freeChain (h : Heap) : Nat → Nat → Option (List Nat)
  | _, 0 => some []
  | 0, _ => none
  | f + 1, bp => (freeChain h f (NEXT_FREE h bp)).map (bp :: ·)

def chains (h : Heap) (fuel : Nat) : Nat → Nat → Option (List Nat)
  | 0, _ => some []
  | k + 1, i =>
    if 12 ≤ i then some []
    else do
      let l ← freeChain h fuel (segGet h i)
      let r ← chains h fuel k (i + 1)
      pure (l ++ r)

/-- The block start addresses visited by the validator's block walk
`for (bp = heap_listp; GET_SIZE(HDRP(bp)) > 0; bp = NEXT_BLKP(bp))`,
collected for the first `fuel` iterations. -/
def blockAddrs (h : Heap) : Nat → Nat → List Nat
  | 0, _ => []
  | f + 1, bp =>
    if GET_SIZE h (HDRP bp) = 0 then []
    else bp :: blockAddrs h f (NEXT_BLKP h bp)

/-- The allocator states reachable from a successful `mm_init` on a host
arena whose break is double-word aligned (as the memlib arena is), by any
finite interleaving of malloc / free / realloc calls. -/
inductive Reach : Heap → Prop where
  | init (env h : Heap) : 8 ∣ env.brk → mm_init env = (h, true) → Reach h
  | step_malloc (h h' : Heap) (size fuel p : Nat) :
      Reach h → mm_malloc h size fuel = some (h', p) → Reach h'
  | step_free (h : Heap) (bp : Nat) : Reach h → Reach (mm_free h bp)
  | step_realloc (h h' : Heap) (ptr size fuel p c : Nat) :
      Reach h → mm_realloc h ptr size fuel = some (h', p, c) → Reach h'

/-! ## Concrete allocator states

A pristine environment whose arena starts at address 4096, and the states
reached from it by short call sequences.  All of them are closed terms
whose byte memories evaluate to numerals, so every question about them is
settled by kernel evaluation. -/

/-- The host environment before `mm_init`: empty memory, arena starting at
address 4096 with 4096 bytes of capacity, both allocator globals null. -/
def env0 : Heap :=
  { mem := 0, lo := 4096, brk := 4096, maxAddr := 8192, heap_listp := 0, seg_free := 0 }

/-- The state after a successful `mm_init` from `env0`: bucket table at
4096–4191, prologue block at 4200, one free block of 168 bytes at 4208
(stored in bucket 3), epilogue header at 4372, break at 4376. -/
def heap0 : Heap := (mm_init env0).1

/-- `heap0` after `malloc(40)`: adjusted size 48, returns 4208; the free
remainder of 120 bytes sits at 4256 in bucket 2. -/
def heapA : Heap := ((mm_malloc heap0 40 20).getD (env0, 0)).1

/-- `heapA` after `malloc(100)`: adjusted size 112, returns the whole
120-byte free block at 4256 (no split: the remainder 8 is below the
minimum block size 24). -/
def heapB : Heap := ((mm_malloc heapA 100 20).getD (env0, 0)).1

/-- `heapB` after `free(4208)` then `free(4256)` — freeing two
arena-adjacent allocated blocks. -/
def heapAB : Heap := mm_free (mm_free heapB 4208) 4256

/-- `heapB` after freeing the same two blocks in the other order. -/
def heapBA : Heap := mm_free (mm_free heapB 4256) 4208

/-- `heap0` after `malloc(16)`: adjusted size 24, returns 4208; free
remainder of 144 bytes at 4232 in bucket 3. -/
def heapC2a : Heap := ((mm_malloc heap0 16 20).getD (env0, 0)).1

/-- `heapC2a` after `malloc(100)`: adjusted size 112, returns 4232; free
remainder of 32 bytes at 4344 in bucket 1. -/
def heapC2b : Heap := ((mm_malloc heapC2a 100 20).getD (env0, 0)).1

/-- `heapC2b` after `free(4208)` and `free(4232)`: a state reached from
init by an allocate/free interleaving only. -/
def heapC2 : Heap := mm_free (mm_free heapC2b 4208) 4232

/-- `heap0` after `malloc(5)`: an allocated block of the minimum size 24
(payload 16 bytes) at 4208; free remainder of 144 bytes at 4232. -/
def heapR : Heap := ((mm_malloc heap0 5 20).getD (env0, 0)).1

/-- The state reached inside `realloc(4208, 20)` on `heapR` right after
the inner `malloc(20)` has returned the new block 4232. -/
def heapRq : Heap := ((mm_malloc heapR 20 20).getD (env0, 0)).1

/-- An environment whose capacity is exhausted exactly by `mm_init`:
every later arena extension fails. -/
def envTight : Heap :=
  { mem := 0, lo := 4096, brk := 4096, maxAddr := 4376, heap_listp := 0, seg_free := 0 }

/-- The state after `mm_init` from `envTight`. -/
def heapTight : Heap := (mm_init envTight).1

/-!
## Proof development

Everything below is theorems about the definitions above.  Concrete
allocator states are evaluated by kernel reduction, which needs the two
option bumps (the byte memory is a numeral of about `256 ^ 4400`).
-/

set_option exponentiation.threshold 200000
set_option maxRecDepth 100000
set_option maxHeartbeats 2000000

/-! ### Arithmetic facts about the byte memory -/

/-- Reading back the field just stored returns the stored value, truncated
to the field width. -/
theorem loadBytes_storeBytes_same (m p n v : Nat) :
    loadBytes (storeBytes m p n v) p n = v % 256 ^ n := by
  unfold loadBytes storeBytes
  have hP : 0 < (256:Nat) ^ p := Nat.pos_pow_of_pos _ (by norm_num)
  have e : m % 256 ^ p + v % 256 ^ n * 256 ^ p + m / 256 ^ (p + n) * 256 ^ (p + n)
      = m % 256 ^ p + (v % 256 ^ n + m / 256 ^ (p + n) * 256 ^ n) * 256 ^ p := by
    rw [Nat.pow_add]; ring
  rw [e, Nat.add_mul_div_right _ _ hP, Nat.div_eq_of_lt (Nat.mod_lt _ hP), Nat.zero_add,
      Nat.add_mul_mod_self_right, Nat.mod_mod_of_dvd _ (dvd_refl _)]

/-- A store at `p` does not affect a read whose range `[q, q + k)` lies
entirely below `p`. -/
theorem loadBytes_storeBytes_left (m p n v q k : Nat) (h : q + k ≤ p) :
    loadBytes (storeBytes m p n v) q k = loadBytes m q k := by
  unfold loadBytes storeBytes
  rw [← Nat.mod_mul_right_div_self (m % 256 ^ p + v % 256 ^ n * 256 ^ p
        + m / 256 ^ (p + n) * 256 ^ (p + n)) (256 ^ q) (256 ^ k),
      ← Nat.mod_mul_right_div_self m (256 ^ q) (256 ^ k), ← Nat.pow_add]
  congr 1
  obtain ⟨d, hd⟩ : (256:Nat) ^ (q + k) ∣ 256 ^ p := pow_dvd_pow _ h
  obtain ⟨f, hf⟩ : (256:Nat) ^ (q + k) ∣ 256 ^ (p + n) := pow_dvd_pow _ (by omega)
  rw [hd, hf]
  have e3 : m % (256 ^ (q + k) * d) + v % 256 ^ n * (256 ^ (q + k) * d)
      + m / (256 ^ (q + k) * f) * (256 ^ (q + k) * f)
      = m % (256 ^ (q + k) * d)
      + (v % 256 ^ n * d + m / (256 ^ (q + k) * f) * f) * 256 ^ (q + k) := by ring
  rw [e3, Nat.add_mul_mod_self_right, Nat.mod_mod_of_dvd _ ⟨d, rfl⟩]

/-- A store at `[p, p + n)` does not affect a read starting at or above
`p + n`. -/
theorem loadBytes_storeBytes_right (m p n v q k : Nat) (h : p + n ≤ q) :
    loadBytes (storeBytes m p n v) q k = loadBytes m q k := by
  have hPN : 0 < (256:Nat) ^ (p + n) := Nat.pos_pow_of_pos _ (by norm_num)
  have hlow : m % 256 ^ p + v % 256 ^ n * 256 ^ p < 256 ^ (p + n) := by
    have h1 : m % 256 ^ p < 256 ^ p := Nat.mod_lt _ (Nat.pos_pow_of_pos _ (by norm_num))
    have h2 : v % 256 ^ n < 256 ^ n := Nat.mod_lt _ (Nat.pos_pow_of_pos _ (by norm_num))
    calc m % 256 ^ p + v % 256 ^ n * 256 ^ p
        < 256 ^ p + v % 256 ^ n * 256 ^ p := by omega
      _ = (v % 256 ^ n + 1) * 256 ^ p := by ring
      _ ≤ 256 ^ n * 256 ^ p := Nat.mul_le_mul_right _ (by omega)
      _ = 256 ^ (p + n) := by rw [Nat.pow_add]; ring
  have key : storeBytes m p n v / 256 ^ q = m / 256 ^ q := by
    obtain ⟨f, hf⟩ : (256:Nat) ^ (p + n) ∣ 256 ^ q := pow_dvd_pow _ h
    unfold storeBytes
    rw [hf, ← Nat.div_div_eq_div_mul, ← Nat.div_div_eq_div_mul,
        Nat.add_mul_div_right _ _ hPN, Nat.div_eq_of_lt hlow, Nat.zero_add]
  unfold loadBytes
  rw [key]

/-- Disjointness of a read from a store, stated with the two cases
combined. -/
theorem loadBytes_storeBytes_disjoint (m p n v q k : Nat)
    (h : q + k ≤ p ∨ p + n ≤ q) :
    loadBytes (storeBytes m p n v) q k = loadBytes m q k := by
  rcases h with h | h
  · exact loadBytes_storeBytes_left m p n v q k h
  · exact loadBytes_storeBytes_right m p n v q k h

/-- PACK really is addition when the size has its low three bits clear and
the allocation bit fits in them: `s | a = s + a` for `8 ∣ s`, `a < 8`. -/
theorem lor_of_aligned {s a : Nat} (hs : 8 ∣ s) (ha : a < 8) : s ||| a = s + a := by
  obtain ⟨k, rfl⟩ := hs
  apply Nat.eq_of_testBit_eq
  intro i
  have h8 : (8 : Nat) * k = 2 ^ 3 * k := by norm_num
  have h1 := Nat.testBit_mul_pow_two_add k (show a < 2 ^ 3 by omega) i
  have h2 := Nat.testBit_mul_pow_two_add k (show 0 < 2 ^ 3 by norm_num) i
  rw [Nat.add_zero] at h2
  rw [Nat.testBit_or, h8, h2, h1]
  by_cases hi : i < 3
  · simp [hi]
  · have h3i : (2:Nat) ^ 3 ≤ 2 ^ i := Nat.pow_le_pow_right (by norm_num) (by omega)
    have hai : a < 2 ^ i := lt_of_lt_of_le (show a < 2 ^ 3 by omega) h3i
    simp [hi, Nat.testBit_lt_two_pow hai]

/-! ### Bounds, readbacks and projections -/

/-- A loaded field is bounded by its width. -/
theorem loadBytes_lt (m p n : Nat) : loadBytes m p n < 256 ^ n := by
  unfold loadBytes
  exact Nat.mod_lt _ (Nat.pos_pow_of_pos _ (by norm_num))

theorem GET_lt (h : Heap) (p : Nat) : GET h p < 2 ^ 32 := by
  have := loadBytes_lt h.mem p 4
  unfold GET
  norm_num at this ⊢
  omega

theorem GET_SIZE_lt (h : Heap) (p : Nat) : GET_SIZE h p < 2 ^ 32 := by
  have h1 := GET_lt h p
  have h2 : GET_SIZE h p ≤ GET h p := Nat.div_mul_le_self _ _
  omega

theorem GET_SIZE_dvd (h : Heap) (p : Nat) : 8 ∣ GET_SIZE h p :=
  ⟨GET h p / 8, by unfold GET_SIZE; ring⟩

theorem NEXT_FREE_lt (h : Heap) (bp : Nat) : NEXT_FREE h bp < 2 ^ 64 := by
  have := loadBytes_lt h.mem (bp + 8) 8
  unfold NEXT_FREE
  norm_num at this ⊢
  omega

theorem PREV_FREE_lt (h : Heap) (bp : Nat) : PREV_FREE h bp < 2 ^ 64 := by
  have := loadBytes_lt h.mem bp 8
  unfold PREV_FREE
  norm_num at this ⊢
  omega

theorem segGet_lt (h : Heap) (i : Nat) : segGet h i < 2 ^ 64 := by
  have := loadBytes_lt h.mem (h.seg_free + 8 * i) 8
  unfold segGet
  norm_num at this ⊢
  omega

/-- The wrapping `size_t` subtraction agrees with truncated subtraction
when no underflow happens. -/
theorem usub64_eq (a b : Nat) (hba : b ≤ a) (ha : a < 2 ^ 64) : usub64 a b = a - b := by
  unfold usub64
  omega

/-- The fold pattern of find_bucket stays below any bound covering the
accumulator and the list. -/
theorem foldl_select_lt {c : Nat → Prop} [DecidablePred c] :
    ∀ (l : List Nat) (a bound : Nat), a < bound → (∀ x ∈ l, x < bound) →
      l.foldl (fun acc i => if c i then i else acc) a < bound
  | [], a, bound, ha, _ => ha
  | i :: t, a, bound, ha, hl => by
    simp only [List.foldl_cons]
    apply foldl_select_lt t _ bound
    · by_cases hci : c i
      · rw [if_pos hci]
        exact hl i (by simp)
      · rw [if_neg hci]
        exact ha
    · intro x hx
      exact hl x (by simp [hx])

/-- The bucket index is always a valid table index. -/
theorem find_bucket_lt (s : Nat) : find_bucket s < 12 := by
  unfold find_bucket
  apply foldl_select_lt
  · norm_num
  · intro x hx
    exact List.mem_range.mp hx

theorem GET_PUT_same (h : Heap) (p v : Nat) : GET (PUT h p v) p = v % 2 ^ 32 := by
  show loadBytes (storeBytes h.mem p 4 v) p 4 = v % 2 ^ 32
  rw [loadBytes_storeBytes_same]
  norm_num

/-- Reading back a freshly written boundary tag: the size field. -/
theorem GET_SIZE_PUT_PACK (h : Heap) (p s a : Nat)
    (hs : 8 ∣ s) (h32 : s < 2 ^ 32) (ha : a < 2) :
    GET_SIZE (PUT h p (PACK s a)) p = s := by
  unfold GET_SIZE PACK
  rw [GET_PUT_same, lor_of_aligned hs (by omega)]
  omega

/-- Reading back a freshly written boundary tag: the allocation bit. -/
theorem GET_ALLOC_PUT_PACK (h : Heap) (p s a : Nat)
    (hs : 8 ∣ s) (h32 : s < 2 ^ 32) (ha : a < 2) :
    GET_ALLOC (PUT h p (PACK s a)) p = a := by
  unfold GET_ALLOC PACK
  rw [GET_PUT_same, lor_of_aligned hs (by omega)]
  omega

theorem PUT_mem (h : Heap) (p v : Nat) : (PUT h p v).mem = storeBytes h.mem p 4 v := by
  dsimp only [PUT]

theorem PUT_seg_free (h : Heap) (p v : Nat) : (PUT h p v).seg_free = h.seg_free := by
  dsimp only [PUT]

theorem setPrevFree_mem (h : Heap) (bp v : Nat) :
    (setPrevFree h bp v).mem = storeBytes h.mem bp 8 v := by
  dsimp only [setPrevFree]

theorem setPrevFree_seg_free (h : Heap) (bp v : Nat) :
    (setPrevFree h bp v).seg_free = h.seg_free := by
  dsimp only [setPrevFree]

theorem setNextFree_mem (h : Heap) (bp v : Nat) :
    (setNextFree h bp v).mem = storeBytes h.mem (bp + 8) 8 v := by
  dsimp only [setNextFree]

theorem setNextFree_seg_free (h : Heap) (bp v : Nat) :
    (setNextFree h bp v).seg_free = h.seg_free := by
  dsimp only [setNextFree]

theorem segSet_mem (h : Heap) (i v : Nat) :
    (segSet h i v).mem = storeBytes h.mem (h.seg_free + 8 * i) 8 v := by
  dsimp only [segSet]

theorem segSet_seg_free (h : Heap) (i v : Nat) : (segSet h i v).seg_free = h.seg_free := by
  dsimp only [segSet]

/-! ### Memory effects of the free-list operations -/

theorem remove_free_seg_free (h : Heap) (bp : Nat) :
    (remove_free h bp).seg_free = h.seg_free := by
  simp only [remove_free]
  by_cases h1 : PREV_FREE h bp = 0 ∧ NEXT_FREE h bp = 0
  · rw [if_pos h1, segSet_seg_free]
  rw [if_neg h1]
  by_cases h2 : PREV_FREE h bp = 0
  · rw [if_pos h2, segSet_seg_free, setPrevFree_seg_free]
  rw [if_neg h2]
  by_cases h3 : NEXT_FREE h bp = 0
  · rw [if_pos h3, setNextFree_seg_free]
  · rw [if_neg h3, setPrevFree_seg_free, setNextFree_seg_free]

theorem insert_free_seg_free (h : Heap) (bp : Nat) :
    (insert_free h bp).seg_free = h.seg_free := by
  simp only [insert_free]
  by_cases hh : segGet h (find_bucket (GET_SIZE h (HDRP bp))) = 0
  · rw [if_pos hh, segSet_seg_free, setNextFree_seg_free, setPrevFree_seg_free]
  · rw [if_neg hh, segSet_seg_free, setPrevFree_seg_free, setNextFree_seg_free,
        setPrevFree_seg_free]

/-- remove_free only writes inside the bucket table and the link areas of
the two list neighbours of `bp`: any read disjoint from those is
unchanged. -/
theorem remove_free_loadBytes (h : Heap) (bp r k : Nat)
    (htab : ∀ j, j < 12 → r + k ≤ h.seg_free + 8 * j ∨ h.seg_free + 8 * j + 8 ≤ r)
    (hpv : PREV_FREE h bp ≠ 0 → r + k ≤ PREV_FREE h bp ∨ PREV_FREE h bp + 16 ≤ r)
    (hnx : NEXT_FREE h bp ≠ 0 → r + k ≤ NEXT_FREE h bp ∨ NEXT_FREE h bp + 16 ≤ r) :
    loadBytes (remove_free h bp).mem r k = loadBytes h.mem r k := by
  have hslot := htab (find_bucket (GET_SIZE h (HDRP bp))) (find_bucket_lt _)
  simp only [remove_free]
  by_cases h1 : PREV_FREE h bp = 0 ∧ NEXT_FREE h bp = 0
  · rw [if_pos h1, segSet_mem,
        loadBytes_storeBytes_disjoint _ _ _ _ _ _ (by omega)]
  rw [if_neg h1]
  by_cases h2 : PREV_FREE h bp = 0
  · rw [if_pos h2]
    have hn0 : NEXT_FREE h bp ≠ 0 := fun hc => h1 ⟨h2, hc⟩
    have hnd := hnx hn0
    rw [segSet_mem, setPrevFree_seg_free,
        loadBytes_storeBytes_disjoint _ _ _ _ _ _ (by omega), setPrevFree_mem,
        loadBytes_storeBytes_disjoint _ _ _ _ _ _ (by omega)]
  rw [if_neg h2]
  have hpd := hpv h2
  by_cases h3 : NEXT_FREE h bp = 0
  · rw [if_pos h3, setNextFree_mem,
        loadBytes_storeBytes_disjoint _ _ _ _ _ _ (by omega)]
  · rw [if_neg h3]
    have hnd := hnx h3
    rw [setPrevFree_mem, loadBytes_storeBytes_disjoint _ _ _ _ _ _ (by omega),
        setNextFree_mem, loadBytes_storeBytes_disjoint _ _ _ _ _ _ (by omega)]

theorem segGet_def (h : Heap) (i : Nat) :
    segGet h i = loadBytes h.mem (h.seg_free + 8 * i) 8 := by dsimp only [segGet]
theorem NEXT_FREE_def (h : Heap) (bp : Nat) :
    NEXT_FREE h bp = loadBytes h.mem (bp + 8) 8 := by dsimp only [NEXT_FREE]
theorem PREV_FREE_def (h : Heap) (bp : Nat) :
    PREV_FREE h bp = loadBytes h.mem bp 8 := by dsimp only [PREV_FREE]

theorem pow256_8 : (256:Nat) ^ 8 = 2 ^ 64 := by norm_num

theorem remove_free_segGet (h : Heap) (bp i : Nat) (hi : i < 12)
    (hpv96 : PREV_FREE h bp ≠ 0 → h.seg_free + 96 ≤ PREV_FREE h bp)
    (hnx96 : NEXT_FREE h bp ≠ 0 → h.seg_free + 96 ≤ NEXT_FREE h bp)
    (hnxsep : NEXT_FREE h bp ≠ 0 →
      bp + 16 ≤ NEXT_FREE h bp ∨ NEXT_FREE h bp + 8 ≤ bp + 8) :
    segGet (remove_free h bp) i = 0 ∨
    segGet (remove_free h bp) i = NEXT_FREE h bp ∨
    segGet (remove_free h bp) i = segGet h i := by
  have hfb := find_bucket_lt (GET_SIZE h (HDRP bp))
  rw [segGet_def, remove_free_seg_free]
  simp only [remove_free]
  by_cases h1 : PREV_FREE h bp = 0 ∧ NEXT_FREE h bp = 0
  · rw [if_pos h1, segSet_mem]
    by_cases hbi : find_bucket (GET_SIZE h (HDRP bp)) = i
    · rw [hbi]
      left
      rw [loadBytes_storeBytes_same]
      norm_num
    · right; right
      rw [loadBytes_storeBytes_disjoint _ _ _ _ _ _ (by omega), segGet_def]
  rw [if_neg h1]
  by_cases h2 : PREV_FREE h bp = 0
  · rw [if_pos h2]
    have hn0 : NEXT_FREE h bp ≠ 0 := fun hc => h1 ⟨h2, hc⟩
    have hns := hnxsep hn0
    have hn96 := hnx96 hn0
    have hval : NEXT_FREE (setPrevFree h (NEXT_FREE h bp) 0) bp = NEXT_FREE h bp := by
      rw [NEXT_FREE_def, setPrevFree_mem,
          loadBytes_storeBytes_disjoint _ _ _ _ _ _ (by omega), ← NEXT_FREE_def]
    rw [segSet_mem, setPrevFree_seg_free, hval]
    by_cases hbi : find_bucket (GET_SIZE h (HDRP bp)) = i
    · rw [hbi]
      right; left
      rw [loadBytes_storeBytes_same, pow256_8, Nat.mod_eq_of_lt (NEXT_FREE_lt h bp)]
    · right; right
      rw [loadBytes_storeBytes_disjoint _ _ _ _ _ _ (by omega), setPrevFree_mem,
          loadBytes_storeBytes_disjoint _ _ _ _ _ _ (by omega), segGet_def]
  rw [if_neg h2]
  have hp96 := hpv96 h2
  by_cases h3 : NEXT_FREE h bp = 0
  · rw [if_pos h3]
    right; right
    rw [setNextFree_mem, loadBytes_storeBytes_disjoint _ _ _ _ _ _ (by omega), segGet_def]
  · rw [if_neg h3]
    have hn96 := hnx96 h3
    right; right
    rw [setPrevFree_mem, loadBytes_storeBytes_disjoint _ _ _ _ _ _ (by omega),
        setNextFree_mem, loadBytes_storeBytes_disjoint _ _ _ _ _ _ (by omega), segGet_def]

theorem insert_free_loadBytes (h : Heap) (bp r k : Nat)
    (htab : ∀ j, j < 12 → r + k ≤ h.seg_free + 8 * j ∨ h.seg_free + 8 * j + 8 ≤ r)
    (hbp : r + k ≤ bp ∨ bp + 16 ≤ r)
    (hhd : segGet h (find_bucket (GET_SIZE h (HDRP bp))) ≠ 0 →
      r + k ≤ segGet h (find_bucket (GET_SIZE h (HDRP bp))) ∨
      segGet h (find_bucket (GET_SIZE h (HDRP bp))) + 8 ≤ r) :
    loadBytes (insert_free h bp).mem r k = loadBytes h.mem r k := by
  have hslot := htab _ (find_bucket_lt (GET_SIZE h (HDRP bp)))
  simp only [insert_free]
  by_cases hh : segGet h (find_bucket (GET_SIZE h (HDRP bp))) = 0
  · rw [if_pos hh, segSet_mem, setNextFree_seg_free, setPrevFree_seg_free,
        loadBytes_storeBytes_disjoint _ _ _ _ _ _ (by omega),
        setNextFree_mem, loadBytes_storeBytes_disjoint _ _ _ _ _ _ (by omega),
        setPrevFree_mem, loadBytes_storeBytes_disjoint _ _ _ _ _ _ (by omega)]
  · rw [if_neg hh]
    have hd := hhd hh
    rw [segSet_mem, setPrevFree_seg_free, setNextFree_seg_free, setPrevFree_seg_free,
        loadBytes_storeBytes_disjoint _ _ _ _ _ _ (by omega),
        setPrevFree_mem, loadBytes_storeBytes_disjoint _ _ _ _ _ _ (by omega),
        setNextFree_mem, loadBytes_storeBytes_disjoint _ _ _ _ _ _ (by omega),
        setPrevFree_mem, loadBytes_storeBytes_disjoint _ _ _ _ _ _ (by omega)]

theorem insert_free_segGet (h : Heap) (bp : Nat) (hbp : bp < 2 ^ 64) :
    segGet (insert_free h bp) (find_bucket (GET_SIZE h (HDRP bp))) = bp := by
  rw [segGet_def, insert_free_seg_free]
  simp only [insert_free]
  by_cases hh : segGet h (find_bucket (GET_SIZE h (HDRP bp))) = 0
  · rw [if_pos hh, segSet_mem, setNextFree_seg_free, setPrevFree_seg_free,
        loadBytes_storeBytes_same, pow256_8, Nat.mod_eq_of_lt hbp]
  · rw [if_neg hh, segSet_mem, setPrevFree_seg_free, setNextFree_seg_free,
        setPrevFree_seg_free, loadBytes_storeBytes_same, pow256_8, Nat.mod_eq_of_lt hbp]

theorem insert_free_prevFree (h : Heap) (bp : Nat) (hsep : h.seg_free + 96 ≤ bp) :
    PREV_FREE (insert_free h bp) bp = 0 := by
  have hfb := find_bucket_lt (GET_SIZE h (HDRP bp))
  rw [PREV_FREE_def]
  simp only [insert_free]
  by_cases hh : segGet h (find_bucket (GET_SIZE h (HDRP bp))) = 0
  · rw [if_pos hh, segSet_mem, setNextFree_seg_free, setPrevFree_seg_free,
        loadBytes_storeBytes_disjoint _ _ _ _ _ _ (by omega),
        setNextFree_mem, loadBytes_storeBytes_disjoint _ _ _ _ _ _ (by omega),
        setPrevFree_mem, loadBytes_storeBytes_same]
    norm_num
  · rw [if_neg hh, segSet_mem, setPrevFree_seg_free, setNextFree_seg_free,
        setPrevFree_seg_free, loadBytes_storeBytes_disjoint _ _ _ _ _ _ (by omega),
        setPrevFree_mem, loadBytes_storeBytes_same]
    norm_num

/-! ### find_bucket as a step function -/

/-- For sizes representable in a nonnegative `int`, `find_bucket` is the
step function with power-of-two thresholds `32, 64, …, 32768`. -/
theorem find_bucket_spec (s : Nat) (hs : s < 2 ^ 31) :
    find_bucket s =
      if 32768 ≤ s then 11 else if 16384 ≤ s then 10 else if 8192 ≤ s then 9
      else if 4096 ≤ s then 8 else if 2048 ≤ s then 7 else if 1024 ≤ s then 6
      else if 512 ≤ s then 5 else if 256 ≤ s then 4 else if 128 ≤ s then 3
      else if 64 ≤ s then 2 else if 32 ≤ s then 1 else 0 := by
  have hc : intCast s = (s : Int) := by
    unfold intCast
    rw [Nat.mod_eq_of_lt (by omega)]
    exact if_pos hs
  unfold find_bucket
  rw [show List.range 12 = [0,1,2,3,4,5,6,7,8,9,10,11] from rfl]
  simp only [List.foldl_cons, List.foldl_nil, hc]
  norm_num [Nat.cast_le]

/-- For sizes below `2 ^ 31` the cast `(int)size` is the identity. -/
theorem intCast_eq_of_lt (s : Nat) (hs : s < 2 ^ 31) : intCast s = (s : Int) := by
  unfold intCast
  rw [Nat.mod_eq_of_lt (by omega)]
  exact if_pos hs

/-- Monotonicity of the fold pattern `if c i then i else acc` over an
ascending list, when the selecting predicate only grows. -/
theorem foldl_select_mono {c d : Nat → Prop} [DecidablePred c] [DecidablePred d]
    (hcd : ∀ i, c i → d i) :
    ∀ (l : List Nat), l.Pairwise (· ≤ ·) → ∀ a b : Nat, a ≤ b → (∀ x ∈ l, b ≤ x) →
      l.foldl (fun acc i => if c i then i else acc) a
        ≤ l.foldl (fun acc i => if d i then i else acc) b
  | [], _, a, b, hab, _ => hab
  | i :: t, hp, a, b, hab, hbl => by
    simp only [List.foldl_cons]
    apply foldl_select_mono hcd t hp.of_cons
    · by_cases hci : c i
      · rw [if_pos hci, if_pos (hcd i hci)]
      · rw [if_neg hci]
        by_cases hdi : d i
        · rw [if_pos hdi]
          exact le_trans hab (hbl i (by simp))
        · rw [if_neg hdi]
          exact hab
    · intro x hx
      by_cases hdi : d i
      · rw [if_pos hdi]
        exact (List.pairwise_cons.mp hp).1 x hx
      · rw [if_neg hdi]
        exact hbl x (by simp [hx])

/-- Exhaustive interval analysis of find_bucket below `2 ^ 31`: the size is
either below `32` (bucket 0), in one of the dyadic ranges
`[2 ^ (i+4), 2 ^ (i+5))` for `1 ≤ i ≤ 10`, or at least `2 ^ 15`
(bucket 11). -/
theorem find_bucket_cases (s : Nat) (hs : s < 2 ^ 31) :
    (s < 32 ∧ find_bucket s = 0) ∨
    (∃ i, 1 ≤ i ∧ i ≤ 10 ∧ 2 ^ (i + 4) ≤ s ∧ s < 2 ^ (i + 5) ∧ find_bucket s = i) ∨
    (2 ^ 15 ≤ s ∧ find_bucket s = 11) := by
  rw [find_bucket_spec s hs]
  by_cases h11 : 32768 ≤ s
  · exact Or.inr (Or.inr ⟨by omega, if_pos h11⟩)
  rw [if_neg h11]
  by_cases h10 : 16384 ≤ s
  · exact Or.inr (Or.inl ⟨10, by omega, by omega, by omega, by omega, if_pos h10⟩)
  rw [if_neg h10]
  by_cases h9 : 8192 ≤ s
  · exact Or.inr (Or.inl ⟨9, by omega, by omega, by omega, by omega, if_pos h9⟩)
  rw [if_neg h9]
  by_cases h8 : 4096 ≤ s
  · exact Or.inr (Or.inl ⟨8, by omega, by omega, by omega, by omega, if_pos h8⟩)
  rw [if_neg h8]
  by_cases h7 : 2048 ≤ s
  · exact Or.inr (Or.inl ⟨7, by omega, by omega, by omega, by omega, if_pos h7⟩)
  rw [if_neg h7]
  by_cases h6 : 1024 ≤ s
  · exact Or.inr (Or.inl ⟨6, by omega, by omega, by omega, by omega, if_pos h6⟩)
  rw [if_neg h6]
  by_cases h5 : 512 ≤ s
  · exact Or.inr (Or.inl ⟨5, by omega, by omega, by omega, by omega, if_pos h5⟩)
  rw [if_neg h5]
  by_cases h4 : 256 ≤ s
  · exact Or.inr (Or.inl ⟨4, by omega, by omega, by omega, by omega, if_pos h4⟩)
  rw [if_neg h4]
  by_cases h3 : 128 ≤ s
  · exact Or.inr (Or.inl ⟨3, by omega, by omega, by omega, by omega, if_pos h3⟩)
  rw [if_neg h3]
  by_cases h2 : 64 ≤ s
  · exact Or.inr (Or.inl ⟨2, by omega, by omega, by omega, by omega, if_pos h2⟩)
  rw [if_neg h2]
  by_cases h1 : 32 ≤ s
  · exact Or.inr (Or.inl ⟨1, by omega, by omega, by omega, by omega, if_pos h1⟩)
  rw [if_neg h1]
  exact Or.inl ⟨by omega, rfl⟩

/-- C5: for sizes representable as a nonnegative 32-bit `int` (below
`2 ^ 31`) `find_bucket` is a pure monotone step function: it is monotone,
bucket `0` covers sizes below `32`, bucket `i` (for `1 ≤ i ≤ 10`) covers
exactly the power-of-two range `[2 ^ (i+4), 2 ^ (i+5))`, and the last
bucket `11` is open-ended (all sizes from `2 ^ 15` up).  Beyond `2 ^ 31`
the `(int)size` cast in the C code goes negative and the claim fails (see
the counterexample). -/
theorem C5_find_bucket_monotone_step :
    (∀ s1 s2 : Nat, s1 ≤ s2 → s2 < 2 ^ 31 → find_bucket s1 ≤ find_bucket s2) ∧
    (∀ s : Nat, s < 2 ^ 31 → (find_bucket s = 0 ↔ s < 32)) ∧
    (∀ i s : Nat, 1 ≤ i → i ≤ 10 → s < 2 ^ 31 →
      (find_bucket s = i ↔ 2 ^ (i + 4) ≤ s ∧ s < 2 ^ (i + 5))) ∧
    (∀ s : Nat, s < 2 ^ 31 → (find_bucket s = 11 ↔ 2 ^ 15 ≤ s)) := by
  refine ⟨?_, ?_, ?_, ?_⟩
  · intro s1 s2 h12 h2
    unfold find_bucket
    apply foldl_select_mono
    · intro i hi
      rw [intCast_eq_of_lt s2 h2]
      rw [intCast_eq_of_lt s1 (by omega)] at hi
      exact le_trans hi (by exact_mod_cast h12)
    · exact (List.pairwise_lt_range 12).imp (fun h => Nat.le_of_lt h)
    · exact le_refl 0
    · intro x hx
      exact Nat.zero_le x
  · intro s hs
    constructor
    · intro h0
      rcases find_bucket_cases s hs with ⟨hlt, _⟩ | ⟨i, hi1, _, _, _, hfb⟩ | ⟨_, hfb⟩
      · exact hlt
      · omega
      · omega
    · intro hlt
      rcases find_bucket_cases s hs with ⟨_, hfb⟩ | ⟨i, hi1, _, hle, _, _⟩ | ⟨hge, _⟩
      · exact hfb
      · have : (2:Nat) ^ 5 ≤ 2 ^ (i + 4) := Nat.pow_le_pow_right (by norm_num) (by omega)
        omega
      · omega
  · intro i s hi1 hi2 hs
    constructor
    · intro hfb
      rcases find_bucket_cases s hs with ⟨_, hfb0⟩ | ⟨j, hj1, hj2, hle, hlt, hfbj⟩ | ⟨_, hfb11⟩
      · omega
      · have hij : i = j := by omega
        subst hij
        exact ⟨hle, hlt⟩
      · omega
    · rintro ⟨hle, hlt⟩
      rcases find_bucket_cases s hs with ⟨hlt0, _⟩ | ⟨j, hj1, hj2, hlej, hltj, hfbj⟩ | ⟨hge, hfb11⟩
      · have : (2:Nat) ^ 5 ≤ 2 ^ (i + 4) := Nat.pow_le_pow_right (by norm_num) (by omega)
        omega
      · rcases Nat.lt_trichotomy i j with hij | hij | hij
        · have : (2:Nat) ^ (i + 5) ≤ 2 ^ (j + 4) := Nat.pow_le_pow_right (by norm_num) (by omega)
          omega
        · omega
        · have : (2:Nat) ^ (j + 5) ≤ 2 ^ (i + 4) := Nat.pow_le_pow_right (by norm_num) (by omega)
          omega
      · have : (2:Nat) ^ (i + 5) ≤ 2 ^ 15 := Nat.pow_le_pow_right (by norm_num) (by omega)
        omega
  · intro s hs
    constructor
    · intro hfb
      rcases find_bucket_cases s hs with ⟨_, hfb0⟩ | ⟨j, hj1, hj2, _, _, hfbj⟩ | ⟨hge, _⟩
      · omega
      · omega
      · exact hge
    · intro hge
      rcases find_bucket_cases s hs with ⟨hlt0, _⟩ | ⟨j, hj1, hj2, _, hltj, hfbj⟩ | ⟨_, hfb11⟩
      · omega
      · have : (2:Nat) ^ (j + 5) ≤ 2 ^ 15 := Nat.pow_le_pow_right (by norm_num) (by omega)
        omega
      · exact hfb11

/-- C5, witness: the monotonicity and range statements applied at
concrete sizes. -/
theorem C5_find_bucket_monotone_step_witness :
    find_bucket 100 ≤ find_bucket 30000 ∧
    (find_bucket 100 = 2 ↔ 2 ^ (2 + 4) ≤ 100 ∧ 100 < 2 ^ (2 + 5)) :=
  ⟨C5_find_bucket_monotone_step.1 100 30000 (by norm_num) (by norm_num),
   C5_find_bucket_monotone_step.2.2.1 2 100 (by norm_num) (by norm_num) (by norm_num)⟩

/-- C5, counterexample: `find_bucket` is not monotone on all of `size_t`:
the cast `(int)size` wraps `2 ^ 31` to a negative value, so the size
`2 ^ 31` lands in bucket `0` although the smaller size `32768` lands in
bucket `11` — against the claim that `bucket_for(s1) ≤ bucket_for(s2)`
whenever `s1 ≤ s2`, and against the last bucket being open-ended. -/
theorem C5_counterexample_int_cast :
    (32768 : Nat) ≤ 2 ^ 31 ∧ find_bucket 32768 = 11 ∧ find_bucket (2 ^ 31) = 0 ∧
    ¬ find_bucket 32768 ≤ find_bucket (2 ^ 31) := by decide

/-- C6: for a request that does not overflow the `size_t` sum
`size + 16 - 1`, malloc computes the adjusted block size as claimed: the
minimum block size `24 = ` header + footer + two link slots when the
request is at most one double word (`8` bytes), and otherwise
`size + 8` (double-word overhead) rounded up to the next multiple of `8`;
in particular every request below the minimum link payload of `16` bytes
gets the minimum block size `24`. -/
theorem C6_adjust_size_formula :
    (∀ s : Nat, 0 < s → s ≤ 8 → adjust_size s = 24) ∧
    (∀ s : Nat, 8 < s → s + 15 < 2 ^ 64 →
      8 ∣ adjust_size s ∧ s + 8 ≤ adjust_size s ∧ adjust_size s < s + 16) ∧
    (∀ s : Nat, 0 < s → s < 16 → adjust_size s = 24) := by
  refine ⟨?_, ?_, ?_⟩ <;> intro s h1 h2 <;> unfold adjust_size
  · rw [if_pos h2]
  · rw [if_neg (by omega)]
    omega
  · by_cases h8 : s ≤ 8
    · rw [if_pos h8]
    · rw [if_neg h8]
      omega

/-- C6, witness: the three parts applied at requests 5, 100 and 12. -/
theorem C6_adjust_size_formula_witness :
    adjust_size 5 = 24 ∧
    (8 ∣ adjust_size 100 ∧ 100 + 8 ≤ adjust_size 100 ∧ adjust_size 100 < 100 + 16) ∧
    adjust_size 12 = 24 :=
  ⟨C6_adjust_size_formula.1 5 (by norm_num) (by norm_num),
   C6_adjust_size_formula.2.1 100 (by norm_num) (by norm_num),
   C6_adjust_size_formula.2.2 12 (by norm_num) (by norm_num)⟩

/-- C6, counterexample: the claim fails for the request `2 ^ 64 - 1`
(a valid positive `size_t`): the sum `size + 15` wraps around, the
computed block size is `8` — not the minimum block size and far below the
request plus overhead rounded up. -/
theorem C6_counterexample_overflow :
    0 < 2 ^ 64 - 1 ∧ adjust_size (2 ^ 64 - 1) = 8 ∧
    ¬ 2 ^ 64 - 1 + 8 ≤ adjust_size (2 ^ 64 - 1) := by decide

/-! ### C1 and C2: the `free` fast path skips coalescing -/

/-- C1: the claim fails on the code.  In the state reached from init by
`malloc(40) = 4208; malloc(100) = 4256` the two returned blocks are
arena-adjacent and allocated; freeing both (in either order) leaves TWO
free blocks of sizes 48 and 120 instead of one of size 168, because
`free` inserts directly — without coalescing — whenever the dead block's
bucket is empty, and the validator's block walk reports one adjacent-free
violation instead of zero. -/
theorem C1_two_adjacent_frees_not_merged :
    (mm_malloc heap0 40 20).map Prod.snd = some 4208 ∧
    (mm_malloc heapA 100 20).map Prod.snd = some 4256 ∧
    GET_ALLOC heapB (HDRP 4208) = 1 ∧ GET_ALLOC heapB (HDRP 4256) = 1 ∧
    NEXT_BLKP heapB 4208 = 4256 ∧
    GET_SIZE heapAB (HDRP 4208) = 48 ∧ GET_ALLOC heapAB (HDRP 4208) = 0 ∧
    GET_SIZE heapAB (HDRP 4256) = 120 ∧ GET_ALLOC heapAB (HDRP 4256) = 0 ∧
    GET_SIZE heapBA (HDRP 4208) = 48 ∧ GET_ALLOC heapBA (HDRP 4208) = 0 ∧
    GET_SIZE heapBA (HDRP 4256) = 120 ∧ GET_ALLOC heapBA (HDRP 4256) = 0 ∧
    (check_blocks heapAB 25 heapAB.heap_listp).map (fun r => r.1.adjFree) = some 1 ∧
    (check_blocks heapBA 25 heapBA.heap_listp).map (fun r => r.1.adjFree) = some 1 := by
  decide

/-- C2: the claim fails on the code.  `heapC2` is reached from a
successful init by the interleaving `malloc(16) = 4208; malloc(100) =
4232; free(4208); free(4232)` (all arguments respect the ownership
rules), yet the no-two-adjacent-free-blocks invariant is violated twice —
the block walk of the validator counts 2 consecutive-free diagnostics —
and the full validator `mm_checkheap` does not even run to completion
(its cycle check dereferences null on the first non-empty bucket). -/
theorem C2_reachable_state_violates_invariants :
    (mm_malloc heap0 16 20).map Prod.snd = some 4208 ∧
    (mm_malloc heapC2a 100 20).map Prod.snd = some 4232 ∧
    GET_ALLOC heapC2 (HDRP 4208) = 0 ∧ GET_ALLOC heapC2 (HDRP 4232) = 0 ∧
    GET_ALLOC heapC2 (HDRP 4344) = 0 ∧
    NEXT_BLKP heapC2 4208 = 4232 ∧ NEXT_BLKP heapC2 4232 = 4344 ∧
    (check_blocks heapC2 25 heapC2.heap_listp).map (fun r => r.1.adjFree) = some 2 ∧
    mm_checkheap heapC2 25 = none := by
  decide

/-! ### C3: what realloc actually copies -/

/-- C3 (amended): when `ptr` and `new_size` are nonzero and the internal
allocation succeeds with a nonnull block, `realloc` frees the old block,
returns the new pointer, and passes to `memcpy` exactly
`min(GET_SIZE(HDRP(ptr)), new_size)` bytes — the old BLOCK size (payload
plus 8 bytes of header/footer overhead) clipped to the new size, not the
old payload size clipped to the new size. -/
theorem C3_realloc_copies_min_blocksize (h : Heap) (p n fuel : Nat) (h1 : Heap) (q : Nat)
    (hp : p ≠ 0) (hn : n ≠ 0) (hq : q ≠ 0) (hm : mm_malloc h n fuel = some (h1, q)) :
    mm_realloc h p n fuel = some (mm_free h1 p, q, min (GET_SIZE h1 (HDRP p)) n) := by
  unfold mm_realloc
  rw [if_neg hn, if_neg hp, hm]
  simp only [if_neg hq]
  have he : (if n < GET_SIZE h1 (HDRP p) then n else GET_SIZE h1 (HDRP p))
      = min (GET_SIZE h1 (HDRP p)) n := by
    rcases Nat.lt_or_ge n (GET_SIZE h1 (HDRP p)) with hlt | hge
    · rw [if_pos hlt]; omega
    · rw [if_neg (by omega)]; omega
  rw [he]

/-- C3, witness: the amended statement applied to the concrete state
`heapR` (old block of size 24 at 4208) and `new_size = 20`. -/
theorem C3_realloc_copies_min_blocksize_witness :
    mm_realloc heapR 4208 20 20
      = some (mm_free heapRq 4208, 4232, min (GET_SIZE heapRq (HDRP 4208)) 20) :=
  C3_realloc_copies_min_blocksize heapR 4208 20 20 heapRq 4232
    (by decide) (by decide) (by decide) (by rfl)

/-- C3, counterexample: in `heapR` the block at 4208 has block size 24,
hence payload size 16; `realloc(4208, 20)` succeeds with the new block
4232 but copies 20 bytes, not the `min(16, 20) = 16` bytes the claim
requires. -/
theorem C3_counterexample_copies_beyond_payload :
    GET_SIZE heapR (HDRP 4208) = 24 ∧ GET_ALLOC heapR (HDRP 4208) = 1 ∧
    (mm_realloc heapR 4208 20 20).map (fun r => r.2) = some (4232, 20) ∧
    min (GET_SIZE heapR (HDRP 4208) - 8) 20 = 16 ∧
    ¬ (mm_realloc heapR 4208 20 20).map (fun r => r.2)
        = some (4232, min (GET_SIZE heapR (HDRP 4208) - 8) 20) := by
  decide

/-! ### C4: the cycle check dereferences null -/

/-- C4: the claim fails on the code.  Directly after a successful init,
bucket 3 holds the one-element (finite, null-terminated, acyclic) list
`[4208]`; on it the hare update `NEXT_FREE(NEXT_FREE(hare))` of
`cycle_check` dereferences the null `NEXT_FREE(4208)` in its very first
iteration — undefined behaviour, modelled as `none` — instead of
terminating normally with no cycle reported; consequently the whole
`mm_checkheap` aborts.  (That the validator never mutates allocator
state holds by construction: the checking functions return only
diagnostic counts.) -/
theorem C4_cycle_check_null_dereference :
    freeChain heap0 20 (segGet heap0 3) = some [4208] ∧
    NEXT_FREE heap0 4208 = 0 ∧
    cycle_check heap0 20 (segGet heap0 3) = none ∧
    mm_checkheap heap0 20 = none := by
  decide

/-! ### C9: the resize edge cases -/

/-- mem_sbrk fails, leaving the state unchanged, when the arena capacity
would be exceeded. -/
theorem mem_sbrk_fail (h : Heap) (incr : Nat) (hc : h.maxAddr < h.brk + incr) :
    mem_sbrk h incr = (h, none) := by
  unfold mem_sbrk
  rw [if_pos hc]

/-- extend_heap fails, leaving the state unchanged, when mem_sbrk does. -/
theorem extend_heap_fail (h : Heap) (w : Nat)
    (hc : h.maxAddr < h.brk + (if w % 2 = 1 then (w + 1) * 4 else w * 4) % 2 ^ 64) :
    extend_heap h w = (h, none) := by
  simp only [extend_heap, mem_sbrk_fail h _ hc]

/-- The adjusted block size always fits in a `size_t`. -/
theorem adjust_size_lt (n : Nat) : adjust_size n < 2 ^ 64 := by
  unfold adjust_size
  by_cases h8 : n ≤ 8
  · rw [if_pos h8]; norm_num
  · rw [if_neg h8]; omega

/-- The word count `max(asize, CHUNKSIZE) / WSIZE` passed to extend_heap
by malloc is always even, so extend_heap does not round it up. -/
theorem extend_words_even (n : Nat) : max (adjust_size n) 170 / 4 % 2 = 0 := by
  unfold adjust_size
  by_cases h8 : n ≤ 8
  · rw [if_pos h8]; decide
  · rw [if_neg h8]; omega

/-- C9: the resize edge cases.  (1) `resize(p, 0)` behaves exactly as
`free(p)` and returns null, for every pointer including null.  (2)
`resize(null, n)` behaves exactly as `allocate(n)`.  (3) whenever the
internal allocation returns null, `resize` propagates that state and
returns null without copying anything or freeing the old block.  (4) in
an initialized state where no free block fits and the arena extension
exceeds the capacity, the allocation fails with the heap state completely
untouched, and `resize` then returns null on that untouched state. -/
theorem C9_resize_edge_cases :
    (∀ (h : Heap) (p fuel : Nat), mm_realloc h p 0 fuel = some (mm_free h p, 0, 0)) ∧
    (∀ (h : Heap) (n fuel : Nat), n ≠ 0 →
      mm_realloc h 0 n fuel = (mm_malloc h n fuel).map (fun r => (r.1, r.2, 0))) ∧
    (∀ (h h1 : Heap) (p n fuel : Nat), p ≠ 0 → n ≠ 0 →
      mm_malloc h n fuel = some (h1, 0) → mm_realloc h p n fuel = some (h1, 0, 0)) ∧
    (∀ (h : Heap) (p n fuel : Nat), p ≠ 0 → n ≠ 0 → h.heap_listp ≠ 0 →
      find_fit h (adjust_size n) fuel = some none →
      h.maxAddr < h.brk + max (adjust_size n) 170 / 4 * 4 →
      mm_malloc h n fuel = some (h, 0) ∧ mm_realloc h p n fuel = some (h, 0, 0)) := by
  refine ⟨?_, ?_, ?_, ?_⟩
  · intro h p fuel
    unfold mm_realloc
    rw [if_pos rfl]
  · intro h n fuel hn
    unfold mm_realloc
    rw [if_neg hn, if_pos rfl]
  · intro h h1 p n fuel hp hn hm
    unfold mm_realloc
    rw [if_neg hn, if_neg hp, hm]
    rfl
  · intro h p n fuel hp hn hl hff hcap
    have hcond : h.maxAddr < h.brk
        + (if (max (adjust_size n) 170 / 4) % 2 = 1 then (max (adjust_size n) 170 / 4 + 1) * 4
           else (max (adjust_size n) 170 / 4) * 4) % 2 ^ 64 := by
      have he : max (adjust_size n) 170 / 4 % 2 = 0 := extend_words_even n
      rw [if_neg (by omega)]
      have h1 : adjust_size n < 2 ^ 64 := adjust_size_lt n
      have h2 : max (adjust_size n) 170 / 4 * 4 ≤ max (adjust_size n) 170 := by omega
      rw [Nat.mod_eq_of_lt (by omega)]
      exact hcap
    have hmal : mm_malloc h n fuel = some (h, 0) := by
      simp only [mm_malloc, if_neg hl, if_neg hn, hff, extend_heap_fail h _ hcond]
    refine ⟨hmal, ?_⟩
    unfold mm_realloc
    rw [if_neg hn, if_neg hp, hmal]
    rfl

/-- C9, witness: part (1) at the uninitialized environment with the null
pointer, and part (4) at the capacity-exhausted state `heapTight` with
request 1000. -/
theorem C9_resize_edge_cases_witness :
    mm_realloc env0 0 0 7 = some (mm_free env0 0, 0, 0) ∧
    (mm_malloc heapTight 1000 20 = some (heapTight, 0) ∧
     mm_realloc heapTight 4208 1000 20 = some (heapTight, 0, 0)) :=
  ⟨C9_resize_edge_cases.1 env0 0 7,
   C9_resize_edge_cases.2.2.2 heapTight 4208 1000 20
     (by decide) (by decide) (by decide) (by decide) (by decide)⟩

end MM

namespace MM

theorem GET_def (h : Heap) (p : Nat) : GET h p = loadBytes h.mem p 4 := by
  dsimp only [GET]
theorem GET_SIZE_def (h : Heap) (p : Nat) : GET_SIZE h p = GET h p / 8 * 8 := by
  dsimp only [GET_SIZE]
theorem GET_ALLOC_def (h : Heap) (p : Nat) : GET_ALLOC h p = GET h p % 2 := by
  dsimp only [GET_ALLOC]
theorem FTRP_def (h : Heap) (bp : Nat) : FTRP h bp = bp + GET_SIZE h (HDRP bp) - 8 := by
  dsimp only [FTRP]
theorem NEXT_BLKP_def (h : Heap) (bp : Nat) : NEXT_BLKP h bp = bp + GET_SIZE h (bp - 4) := by
  dsimp only [NEXT_BLKP]

theorem GET_PUT_disjoint (h : Heap) (p v q : Nat) (hd : q + 4 ≤ p ∨ p + 4 ≤ q) :
    GET (PUT h p v) q = GET h q := by
  rw [GET_def, PUT_mem, loadBytes_storeBytes_disjoint _ _ _ _ _ _ hd, ← GET_def]

theorem GET_SIZE_PUT_disjoint (h : Heap) (p v q : Nat) (hd : q + 4 ≤ p ∨ p + 4 ≤ q) :
    GET_SIZE (PUT h p v) q = GET_SIZE h q := by
  rw [GET_SIZE_def, GET_PUT_disjoint h p v q hd, ← GET_SIZE_def]

theorem GET_ALLOC_PUT_disjoint (h : Heap) (p v q : Nat) (hd : q + 4 ≤ p ∨ p + 4 ≤ q) :
    GET_ALLOC (PUT h p v) q = GET_ALLOC h q := by
  rw [GET_ALLOC_def, GET_PUT_disjoint h p v q hd, ← GET_ALLOC_def]

theorem segGet_PUT_disjoint (h : Heap) (p v i : Nat)
    (hd : h.seg_free + 8 * i + 8 ≤ p ∨ p + 4 ≤ h.seg_free + 8 * i) :
    segGet (PUT h p v) i = segGet h i := by
  rw [segGet_def, PUT_seg_free, PUT_mem,
      loadBytes_storeBytes_disjoint _ _ _ _ _ _ (by omega), ← segGet_def]

theorem GET_remove_free (h : Heap) (bp q : Nat)
    (htab : ∀ j, j < 12 → q + 4 ≤ h.seg_free + 8 * j ∨ h.seg_free + 8 * j + 8 ≤ q)
    (hpv : PREV_FREE h bp ≠ 0 → q + 4 ≤ PREV_FREE h bp ∨ PREV_FREE h bp + 16 ≤ q)
    (hnx : NEXT_FREE h bp ≠ 0 → q + 4 ≤ NEXT_FREE h bp ∨ NEXT_FREE h bp + 16 ≤ q) :
    GET (remove_free h bp) q = GET h q := by
  rw [GET_def, remove_free_loadBytes h bp q 4 htab hpv hnx, ← GET_def]

theorem GET_insert_free (h : Heap) (bp q : Nat)
    (htab : ∀ j, j < 12 → q + 4 ≤ h.seg_free + 8 * j ∨ h.seg_free + 8 * j + 8 ≤ q)
    (hbp : q + 4 ≤ bp ∨ bp + 16 ≤ q)
    (hhd : segGet h (find_bucket (GET_SIZE h (HDRP bp))) ≠ 0 →
      q + 4 ≤ segGet h (find_bucket (GET_SIZE h (HDRP bp))) ∨
      segGet h (find_bucket (GET_SIZE h (HDRP bp))) + 8 ≤ q) :
    GET (insert_free h bp) q = GET h q := by
  rw [GET_def, insert_free_loadBytes h bp q 4 htab hbp hhd, ← GET_def]

end MM

namespace MM

set_option exponentiation.threshold 200000
set_option maxRecDepth 100000
set_option maxHeartbeats 2000000

set_option linter.all false

theorem place_split_spec (h : Heap) (bp asize : Nat)
    (hasz : 24 ≤ asize) (ha8 : 8 ∣ asize)
    (hle : asize ≤ GET_SIZE h (HDRP bp))
    (htab : h.seg_free + 100 ≤ bp)
    (hb64 : bp + GET_SIZE h (HDRP bp) < 2 ^ 64)
    (hpv : PREV_FREE h bp ≠ 0 → h.seg_free + 96 ≤ PREV_FREE h bp ∧
      (bp + GET_SIZE h (HDRP bp) ≤ PREV_FREE h bp ∨ PREV_FREE h bp + 16 ≤ bp - 4))
    (hnx : NEXT_FREE h bp ≠ 0 → h.seg_free + 96 ≤ NEXT_FREE h bp ∧
      (bp + GET_SIZE h (HDRP bp) ≤ NEXT_FREE h bp ∨ NEXT_FREE h bp + 16 ≤ bp - 4))
    (hq : segGet h (find_bucket (GET_SIZE h (HDRP bp) - asize)) ≠ 0 →
      bp + GET_SIZE h (HDRP bp) ≤ segGet h (find_bucket (GET_SIZE h (HDRP bp) - asize)) ∨
      segGet h (find_bucket (GET_SIZE h (HDRP bp) - asize)) + 16 ≤ bp - 4)
    (hsplit : 24 ≤ GET_SIZE h (HDRP bp) - asize) :
    GET_SIZE (place h bp asize) (HDRP bp) = asize ∧
    GET_ALLOC (place h bp asize) (HDRP bp) = 1 ∧
    GET_SIZE (place h bp asize) (bp + asize - 8) = asize ∧
    GET_ALLOC (place h bp asize) (bp + asize - 8) = 1 ∧
    GET_SIZE (place h bp asize) (HDRP (bp + asize)) = GET_SIZE h (HDRP bp) - asize ∧
    GET_ALLOC (place h bp asize) (HDRP (bp + asize)) = 0 ∧
    GET_SIZE (place h bp asize) (bp + GET_SIZE h (HDRP bp) - 8)
      = GET_SIZE h (HDRP bp) - asize ∧
    GET_ALLOC (place h bp asize) (bp + GET_SIZE h (HDRP bp) - 8) = 0 ∧
    NEXT_BLKP (place h bp asize) bp = bp + asize ∧
    segGet (place h bp asize) (find_bucket (GET_SIZE h (HDRP bp) - asize)) = bp + asize ∧
    PREV_FREE (place h bp asize) (bp + asize) = 0 := by
  simp only [HDRP] at *
  have hq8 : 8 ∣ GET_SIZE h (bp - 4) := GET_SIZE_dvd h (bp - 4)
  have h32 : GET_SIZE h (bp - 4) < 2 ^ 32 := GET_SIZE_lt h (bp - 4)
  have ha32 : asize < 2 ^ 32 := by omega
  have hd8 : 8 ∣ (GET_SIZE h (bp - 4) - asize) := Nat.dvd_sub' hq8 ha8
  have hd32 : GET_SIZE h (bp - 4) - asize < 2 ^ 32 := by omega
  have hu : usub64 (GET_SIZE h (bp - 4)) asize = GET_SIZE h (bp - 4) - asize :=
    usub64_eq _ _ hle (by omega)
  have e2 : FTRP (PUT (remove_free h bp) (bp - 4) (PACK asize 1)) bp = bp + asize - 8 := by
    rw [FTRP_def]
    simp only [HDRP]
    rw [GET_SIZE_PUT_PACK _ _ _ _ ha8 ha32 (by norm_num)]
  have e3 : NEXT_BLKP (PUT (PUT (remove_free h bp) (bp - 4) (PACK asize 1))
      (bp + asize - 8) (PACK asize 1)) bp = bp + asize := by
    rw [NEXT_BLKP_def, GET_SIZE_PUT_disjoint _ _ _ _ (Or.inl (by omega)),
        GET_SIZE_PUT_PACK _ _ _ _ ha8 ha32 (by norm_num)]
  have e4 : FTRP (PUT (PUT (PUT (remove_free h bp) (bp - 4) (PACK asize 1))
      (bp + asize - 8) (PACK asize 1)) (bp + asize - 4)
      (PACK (GET_SIZE h (bp - 4) - asize) 0)) (bp + asize)
      = bp + GET_SIZE h (bp - 4) - 8 := by
    rw [FTRP_def]
    simp only [HDRP]
    rw [GET_SIZE_PUT_PACK _ _ _ _ hd8 hd32 (by norm_num)]
    omega
  have hpl : place h bp asize
      = insert_free
          (PUT (PUT (PUT (PUT (remove_free h bp) (bp - 4) (PACK asize 1))
              (bp + asize - 8) (PACK asize 1))
            (bp + asize - 4) (PACK (GET_SIZE h (bp - 4) - asize) 0))
          (bp + GET_SIZE h (bp - 4) - 8) (PACK (GET_SIZE h (bp - 4) - asize) 0))
        (bp + asize) := by
    simp only [place, HDRP]
    rw [hu, if_pos hsplit, e2, e3, e4]
  rw [hpl]
  set H5 := PUT (PUT (PUT (PUT (remove_free h bp) (bp - 4) (PACK asize 1))
      (bp + asize - 8) (PACK asize 1)) (bp + asize - 4)
      (PACK (GET_SIZE h (bp - 4) - asize) 0))
      (bp + GET_SIZE h (bp - 4) - 8) (PACK (GET_SIZE h (bp - 4) - asize) 0) with hH5
  have hseg5 : H5.seg_free = h.seg_free := by
    rw [hH5, PUT_seg_free, PUT_seg_free, PUT_seg_free, PUT_seg_free, remove_free_seg_free]
  have g1 : GET_SIZE H5 (bp - 4) = asize := by
    rw [hH5, GET_SIZE_PUT_disjoint _ _ _ _ (Or.inl (by omega)),
        GET_SIZE_PUT_disjoint _ _ _ _ (Or.inl (by omega)),
        GET_SIZE_PUT_disjoint _ _ _ _ (Or.inl (by omega)),
        GET_SIZE_PUT_PACK _ _ _ _ ha8 ha32 (by norm_num)]
  have g1a : GET_ALLOC H5 (bp - 4) = 1 := by
    rw [hH5, GET_ALLOC_PUT_disjoint _ _ _ _ (Or.inl (by omega)),
        GET_ALLOC_PUT_disjoint _ _ _ _ (Or.inl (by omega)),
        GET_ALLOC_PUT_disjoint _ _ _ _ (Or.inl (by omega)),
        GET_ALLOC_PUT_PACK _ _ _ _ ha8 ha32 (by norm_num)]
  have g2 : GET_SIZE H5 (bp + asize - 8) = asize := by
    rw [hH5, GET_SIZE_PUT_disjoint _ _ _ _ (Or.inl (by omega)),
        GET_SIZE_PUT_disjoint _ _ _ _ (Or.inl (by omega)),
        GET_SIZE_PUT_PACK _ _ _ _ ha8 ha32 (by norm_num)]
  have g2a : GET_ALLOC H5 (bp + asize - 8) = 1 := by
    rw [hH5, GET_ALLOC_PUT_disjoint _ _ _ _ (Or.inl (by omega)),
        GET_ALLOC_PUT_disjoint _ _ _ _ (Or.inl (by omega)),
        GET_ALLOC_PUT_PACK _ _ _ _ ha8 ha32 (by norm_num)]
  have g3 : GET_SIZE H5 (bp + asize - 4) = GET_SIZE h (bp - 4) - asize := by
    rw [hH5, GET_SIZE_PUT_disjoint _ _ _ _ (Or.inl (by omega)),
        GET_SIZE_PUT_PACK _ _ _ _ hd8 hd32 (by norm_num)]
  have g3a : GET_ALLOC H5 (bp + asize - 4) = 0 := by
    rw [hH5, GET_ALLOC_PUT_disjoint _ _ _ _ (Or.inl (by omega)),
        GET_ALLOC_PUT_PACK _ _ _ _ hd8 hd32 (by norm_num)]
  have g4 : GET_SIZE H5 (bp + GET_SIZE h (bp - 4) - 8) = GET_SIZE h (bp - 4) - asize := by
    rw [hH5, GET_SIZE_PUT_PACK _ _ _ _ hd8 hd32 (by norm_num)]
  have g4a : GET_ALLOC H5 (bp + GET_SIZE h (bp - 4) - 8) = 0 := by
    rw [hH5, GET_ALLOC_PUT_PACK _ _ _ _ hd8 hd32 (by norm_num)]
  have hb12 := find_bucket_lt (GET_SIZE h (bp - 4) - asize)
  have hval5 : segGet H5 (find_bucket (GET_SIZE h (bp - 4) - asize))
      = segGet (remove_free h bp) (find_bucket (GET_SIZE h (bp - 4) - asize)) := by
    have hsfx : ∀ j : Nat, j < 12 → h.seg_free + 8 * j + 8 ≤ bp - 4 := by
      intro j hj
      omega
    rw [hH5, segGet_PUT_disjoint _ _ _ _
          (Or.inl (by simp only [PUT_seg_free, remove_free_seg_free]; omega)),
        segGet_PUT_disjoint _ _ _ _
          (Or.inl (by simp only [PUT_seg_free, remove_free_seg_free]; omega)),
        segGet_PUT_disjoint _ _ _ _
          (Or.inl (by simp only [PUT_seg_free, remove_free_seg_free]; omega)),
        segGet_PUT_disjoint _ _ _ _
          (Or.inl (by simp only [remove_free_seg_free]; omega))]
  have hnxsep : NEXT_FREE h bp ≠ 0 →
      bp + 16 ≤ NEXT_FREE h bp ∨ NEXT_FREE h bp + 8 ≤ bp + 8 := by
    intro hne
    rcases (hnx hne).2 with hc | hc
    · left; omega
    · right; omega
  have hvr := remove_free_segGet h bp (find_bucket (GET_SIZE h (bp - 4) - asize)) hb12
      (fun hne => (hpv hne).1) (fun hne => (hnx hne).1) hnxsep
  have hv : segGet H5 (find_bucket (GET_SIZE h (bp - 4) - asize)) ≠ 0 →
      bp + GET_SIZE h (bp - 4) ≤ segGet H5 (find_bucket (GET_SIZE h (bp - 4) - asize)) ∨
      segGet H5 (find_bucket (GET_SIZE h (bp - 4) - asize)) + 16 ≤ bp - 4 := by
    intro hne
    rw [hval5] at hne ⊢
    rcases hvr with h0 | hn | hh
    · exact absurd h0 hne
    · rw [hn] at hne ⊢
      rcases (hnx hne).2 with hc | hc
      · left; omega
      · right; omega
    · rw [hh] at hne ⊢
      exact hq hne
  have hRead : ∀ q, bp - 4 ≤ q → q + 4 ≤ bp + GET_SIZE h (bp - 4) →
      (q + 4 ≤ bp + asize ∨ bp + asize + 16 ≤ q) →
      GET (insert_free H5 (bp + asize)) q = GET H5 q := by
    intro q hql hqr hsep
    apply GET_insert_free
    · intro j hj
      rw [hseg5]
      omega
    · exact hsep
    · intro hne
      simp only [HDRP] at hne ⊢
      rw [g3] at hne ⊢
      rcases hv hne with hc | hc
      · left; omega
      · right; omega
  have c1 : GET_SIZE (insert_free H5 (bp + asize)) (bp - 4) = asize := by
    rw [GET_SIZE_def, hRead (bp - 4) (by omega) (by omega) (by omega), ← GET_SIZE_def, g1]
  have c1a : GET_ALLOC (insert_free H5 (bp + asize)) (bp - 4) = 1 := by
    rw [GET_ALLOC_def, hRead (bp - 4) (by omega) (by omega) (by omega), ← GET_ALLOC_def, g1a]
  have c2 : GET_SIZE (insert_free H5 (bp + asize)) (bp + asize - 8) = asize := by
    rw [GET_SIZE_def, hRead (bp + asize - 8) (by omega) (by omega) (by omega),
        ← GET_SIZE_def, g2]
  have c2a : GET_ALLOC (insert_free H5 (bp + asize)) (bp + asize - 8) = 1 := by
    rw [GET_ALLOC_def, hRead (bp + asize - 8) (by omega) (by omega) (by omega),
        ← GET_ALLOC_def, g2a]
  have c3 : GET_SIZE (insert_free H5 (bp + asize)) (bp + asize - 4)
      = GET_SIZE h (bp - 4) - asize := by
    rw [GET_SIZE_def, hRead (bp + asize - 4) (by omega) (by omega) (by omega),
        ← GET_SIZE_def, g3]
  have c3a : GET_ALLOC (insert_free H5 (bp + asize)) (bp + asize - 4) = 0 := by
    rw [GET_ALLOC_def, hRead (bp + asize - 4) (by omega) (by omega) (by omega),
        ← GET_ALLOC_def, g3a]
  have c4 : GET_SIZE (insert_free H5 (bp + asize)) (bp + GET_SIZE h (bp - 4) - 8)
      = GET_SIZE h (bp - 4) - asize := by
    rw [GET_SIZE_def, hRead (bp + GET_SIZE h (bp - 4) - 8) (by omega) (by omega) (by omega),
        ← GET_SIZE_def, g4]
  have c4a : GET_ALLOC (insert_free H5 (bp + asize)) (bp + GET_SIZE h (bp - 4) - 8) = 0 := by
    rw [GET_ALLOC_def, hRead (bp + GET_SIZE h (bp - 4) - 8) (by omega) (by omega) (by omega),
        ← GET_ALLOC_def, g4a]
  have c5 : NEXT_BLKP (insert_free H5 (bp + asize)) bp = bp + asize := by
    rw [NEXT_BLKP_def, c1]
  have c6 : segGet (insert_free H5 (bp + asize))
      (find_bucket (GET_SIZE h (bp - 4) - asize)) = bp + asize := by
    have hsg := insert_free_segGet H5 (bp + asize) (by omega)
    simp only [HDRP] at hsg
    rw [g3] at hsg
    exact hsg
  have c7 : PREV_FREE (insert_free H5 (bp + asize)) (bp + asize) = 0 := by
    apply insert_free_prevFree
    rw [hseg5]
    omega
  exact ⟨c1, c1a, c2, c2a, c3, c3a, c4, c4a, c5, c6, c7⟩

theorem place_nosplit_spec (h : Heap) (bp asize : Nat)
    (hasz : 24 ≤ asize)
    (hle : asize ≤ GET_SIZE h (HDRP bp))
    (hns : GET_SIZE h (HDRP bp) - asize < 24) :
    GET_SIZE (place h bp asize) (HDRP bp) = GET_SIZE h (HDRP bp) ∧
    GET_ALLOC (place h bp asize) (HDRP bp) = 1 ∧
    GET_SIZE (place h bp asize) (bp + GET_SIZE h (HDRP bp) - 8) = GET_SIZE h (HDRP bp) ∧
    GET_ALLOC (place h bp asize) (bp + GET_SIZE h (HDRP bp) - 8) = 1 := by
  simp only [HDRP] at *
  have hq8 : 8 ∣ GET_SIZE h (bp - 4) := GET_SIZE_dvd h (bp - 4)
  have h32 : GET_SIZE h (bp - 4) < 2 ^ 32 := GET_SIZE_lt h (bp - 4)
  have hu : usub64 (GET_SIZE h (bp - 4)) asize = GET_SIZE h (bp - 4) - asize :=
    usub64_eq _ _ hle (by omega)
  have e2 : FTRP (PUT (remove_free h bp) (bp - 4) (PACK (GET_SIZE h (bp - 4)) 1)) bp
      = bp + GET_SIZE h (bp - 4) - 8 := by
    rw [FTRP_def]
    simp only [HDRP]
    rw [GET_SIZE_PUT_PACK _ _ _ _ hq8 h32 (by norm_num)]
  have hpl : place h bp asize
      = PUT (PUT (remove_free h bp) (bp - 4) (PACK (GET_SIZE h (bp - 4)) 1))
          (bp + GET_SIZE h (bp - 4) - 8) (PACK (GET_SIZE h (bp - 4)) 1) := by
    simp only [place, HDRP]
    rw [hu, if_neg (by omega), e2]
  rw [hpl]
  refine ⟨?_, ?_, ?_, ?_⟩
  · rw [GET_SIZE_PUT_disjoint _ _ _ _ (Or.inl (by omega)),
        GET_SIZE_PUT_PACK _ _ _ _ hq8 h32 (by norm_num)]
  · rw [GET_ALLOC_PUT_disjoint _ _ _ _ (Or.inl (by omega)),
        GET_ALLOC_PUT_PACK _ _ _ _ hq8 h32 (by norm_num)]
  · rw [GET_SIZE_PUT_PACK _ _ _ _ hq8 h32 (by norm_num)]
  · rw [GET_ALLOC_PUT_PACK _ _ _ _ hq8 h32 (by norm_num)]


/-- C7: place on a chosen free block either splits it (remainder at least the
24-byte minimum block size) into an allocated front portion of exactly the
adjusted size and a free remainder re-inserted at the head of its bucket, or,
when the remainder would be below the minimum, allocates the whole block so the
header keeps the block's original size. -/
theorem C7_place_split_or_whole (h : Heap) (bp asize : Nat)
    (hasz : 24 ≤ asize) (ha8 : 8 ∣ asize)
    (hle : asize ≤ GET_SIZE h (HDRP bp))
    (htab : h.seg_free + 100 ≤ bp)
    (hb64 : bp + GET_SIZE h (HDRP bp) < 2 ^ 64)
    (hpv : PREV_FREE h bp ≠ 0 → h.seg_free + 96 ≤ PREV_FREE h bp ∧
      (bp + GET_SIZE h (HDRP bp) ≤ PREV_FREE h bp ∨ PREV_FREE h bp + 16 ≤ bp - 4))
    (hnx : NEXT_FREE h bp ≠ 0 → h.seg_free + 96 ≤ NEXT_FREE h bp ∧
      (bp + GET_SIZE h (HDRP bp) ≤ NEXT_FREE h bp ∨ NEXT_FREE h bp + 16 ≤ bp - 4))
    (hq : segGet h (find_bucket (GET_SIZE h (HDRP bp) - asize)) ≠ 0 →
      bp + GET_SIZE h (HDRP bp) ≤ segGet h (find_bucket (GET_SIZE h (HDRP bp) - asize)) ∨
      segGet h (find_bucket (GET_SIZE h (HDRP bp) - asize)) + 16 ≤ bp - 4) :
    (24 ≤ GET_SIZE h (HDRP bp) - asize →
      GET_SIZE (place h bp asize) (HDRP bp) = asize ∧
      GET_ALLOC (place h bp asize) (HDRP bp) = 1 ∧
      GET_SIZE (place h bp asize) (bp + asize - 8) = asize ∧
      GET_ALLOC (place h bp asize) (bp + asize - 8) = 1 ∧
      GET_SIZE (place h bp asize) (HDRP (bp + asize)) = GET_SIZE h (HDRP bp) - asize ∧
      GET_ALLOC (place h bp asize) (HDRP (bp + asize)) = 0 ∧
      GET_SIZE (place h bp asize) (bp + GET_SIZE h (HDRP bp) - 8)
        = GET_SIZE h (HDRP bp) - asize ∧
      GET_ALLOC (place h bp asize) (bp + GET_SIZE h (HDRP bp) - 8) = 0 ∧
      NEXT_BLKP (place h bp asize) bp = bp + asize ∧
      segGet (place h bp asize) (find_bucket (GET_SIZE h (HDRP bp) - asize)) = bp + asize ∧
      PREV_FREE (place h bp asize) (bp + asize) = 0) ∧
    (GET_SIZE h (HDRP bp) - asize < 24 →
      GET_SIZE (place h bp asize) (HDRP bp) = GET_SIZE h (HDRP bp) ∧
      GET_ALLOC (place h bp asize) (HDRP bp) = 1 ∧
      GET_SIZE (place h bp asize) (bp + GET_SIZE h (HDRP bp) - 8) = GET_SIZE h (HDRP bp) ∧
      GET_ALLOC (place h bp asize) (bp + GET_SIZE h (HDRP bp) - 8) = 1) :=
  ⟨fun hsplit =>
    place_split_spec h bp asize hasz ha8 hle htab hb64 hpv hnx hq hsplit,
   fun hns =>
    place_nosplit_spec h bp asize hasz hle hns⟩

/-- Witness for C7 on the heap directly after init: the 168-byte free block at
4208, allocation of adjusted size 48. -/
theorem C7_place_split_or_whole_witness :
    (24 ≤ GET_SIZE heap0 (HDRP 4208) - 48 →
      GET_SIZE (place heap0 4208 48) (HDRP 4208) = 48 ∧
      GET_ALLOC (place heap0 4208 48) (HDRP 4208) = 1 ∧
      GET_SIZE (place heap0 4208 48) (4208 + 48 - 8) = 48 ∧
      GET_ALLOC (place heap0 4208 48) (4208 + 48 - 8) = 1 ∧
      GET_SIZE (place heap0 4208 48) (HDRP (4208 + 48)) = GET_SIZE heap0 (HDRP 4208) - 48 ∧
      GET_ALLOC (place heap0 4208 48) (HDRP (4208 + 48)) = 0 ∧
      GET_SIZE (place heap0 4208 48) (4208 + GET_SIZE heap0 (HDRP 4208) - 8)
        = GET_SIZE heap0 (HDRP 4208) - 48 ∧
      GET_ALLOC (place heap0 4208 48) (4208 + GET_SIZE heap0 (HDRP 4208) - 8) = 0 ∧
      NEXT_BLKP (place heap0 4208 48) 4208 = 4208 + 48 ∧
      segGet (place heap0 4208 48) (find_bucket (GET_SIZE heap0 (HDRP 4208) - 48))
        = 4208 + 48 ∧
      PREV_FREE (place heap0 4208 48) (4208 + 48) = 0) ∧
    (GET_SIZE heap0 (HDRP 4208) - 48 < 24 →
      GET_SIZE (place heap0 4208 48) (HDRP 4208) = GET_SIZE heap0 (HDRP 4208) ∧
      GET_ALLOC (place heap0 4208 48) (HDRP 4208) = 1 ∧
      GET_SIZE (place heap0 4208 48) (4208 + GET_SIZE heap0 (HDRP 4208) - 8)
        = GET_SIZE heap0 (HDRP 4208) ∧
      GET_ALLOC (place heap0 4208 48) (4208 + GET_SIZE heap0 (HDRP 4208) - 8) = 1) :=
  C7_place_split_or_whole heap0 4208 48 (by decide) (by decide) (by decide) (by decide)
    (by decide) (by decide) (by decide) (by decide)


theorem scan_list_zero_bp (h : Heap) (asize fuel : Nat) :
    scan_list h asize fuel 0 = some none := by
  cases fuel <;> rfl

theorem scan_list_succ (h : Heap) (asize f b : Nat) :
    scan_list h asize (f + 1) (b + 1) =
      if asize ≤ GET_SIZE h (HDRP (b + 1)) then some (some (b + 1))
      else scan_list h asize f (NEXT_FREE h (b + 1)) := rfl

theorem freeChain_zero_bp (h : Heap) (fuel : Nat) : freeChain h fuel 0 = some [] := by
  cases fuel <;> rfl

theorem freeChain_zero_fuel (h : Heap) (b : Nat) : freeChain h 0 (b + 1) = none := rfl

theorem freeChain_succ (h : Heap) (f b : Nat) :
    freeChain h (f + 1) (b + 1)
      = (freeChain h f (NEXT_FREE h (b + 1))).map (fun l => (b + 1) :: l) := rfl

theorem chains_zero (h : Heap) (fuel i : Nat) : chains h fuel 0 i = some [] := rfl

theorem chains_succ (h : Heap) (fuel k i : Nat) :
    chains h fuel (k + 1) i =
      if 12 ≤ i then some []
      else (freeChain h fuel (segGet h i)).bind fun l =>
           (chains h fuel k (i + 1)).bind fun r => some (l ++ r) := rfl

theorem find_fit_from_zero (h : Heap) (asize fuel i : Nat) :
    find_fit_from h asize fuel 0 i = some none := rfl

theorem find_fit_from_succ (h : Heap) (asize fuel k i : Nat) :
    find_fit_from h asize fuel (k + 1) i =
      if 12 ≤ i then some none
      else match scan_list h asize fuel (segGet h i) with
        | none => none
        | some (some bp) => some (some bp)
        | some none => find_fit_from h asize fuel k (i + 1) := rfl

theorem find_append_some {α : Type} (p : α → Bool) :
    ∀ (l : List α) (r : List α) (b : α), l.find? p = some b → (l ++ r).find? p = some b := by
  intro l
  induction l with
  | nil => intro r b hb; cases hb
  | cons a t iht =>
      intro r b hb
      cases hpa : p a with
      | true =>
          rw [List.find?_cons_of_pos _ hpa] at hb
          rw [List.cons_append, List.find?_cons_of_pos _ hpa]
          exact hb
      | false =>
          rw [List.find?_cons_of_neg _ (by simp [hpa])] at hb
          rw [List.cons_append, List.find?_cons_of_neg _ (by simp [hpa])]
          exact iht r b hb

theorem find_append_none {α : Type} (p : α → Bool) :
    ∀ (l : List α) (r : List α), l.find? p = none → (l ++ r).find? p = r.find? p := by
  intro l
  induction l with
  | nil => intro r _; rfl
  | cons a t iht =>
      intro r hb
      cases hpa : p a with
      | true => rw [List.find?_cons_of_pos _ hpa] at hb; cases hb
      | false =>
          rw [List.find?_cons_of_neg _ (by simp [hpa])] at hb
          rw [List.cons_append, List.find?_cons_of_neg _ (by simp [hpa])]
          exact iht r hb

theorem scan_list_eq_find (h : Heap) (asize : Nat) :
    ∀ fuel bp L, freeChain h fuel bp = some L →
      scan_list h asize fuel bp
        = some (L.find? fun b => asize ≤ GET_SIZE h (HDRP b)) := by
  intro fuel
  induction fuel with
  | zero =>
      intro bp L hF
      cases bp with
      | zero =>
          rw [freeChain_zero_bp] at hF
          cases hF
          rfl
      | succ b =>
          rw [freeChain_zero_fuel] at hF
          cases hF
  | succ f ih =>
      intro bp L hF
      cases bp with
      | zero =>
          rw [freeChain_zero_bp] at hF
          cases hF
          rfl
      | succ b =>
          rw [freeChain_succ] at hF
          cases hE : freeChain h f (NEXT_FREE h (b + 1)) with
          | none => rw [hE] at hF; cases hF
          | some T =>
              rw [hE] at hF
              cases hF
              rw [scan_list_succ]
              by_cases hc : asize ≤ GET_SIZE h (HDRP (b + 1))
              · rw [if_pos hc, List.find?_cons_of_pos _ (by simpa using hc)]
              · rw [if_neg hc, List.find?_cons_of_neg _ (by simpa using hc)]
                exact ih (NEXT_FREE h (b + 1)) T hE

theorem find_fit_from_eq_chains (h : Heap) (asize fuel : Nat) :
    ∀ k i L, chains h fuel k i = some L →
      find_fit_from h asize fuel k i
        = some (L.find? fun b => asize ≤ GET_SIZE h (HDRP b)) := by
  intro k
  induction k with
  | zero =>
      intro i L hC
      rw [chains_zero] at hC
      cases hC
      rfl
  | succ k ih =>
      intro i L hC
      rw [chains_succ] at hC
      rw [find_fit_from_succ]
      by_cases hi : 12 ≤ i
      · rw [if_pos hi] at hC
        cases hC
        rw [if_pos hi]
        rfl
      · rw [if_neg hi] at hC
        rw [if_neg hi]
        cases hl : freeChain h fuel (segGet h i) with
        | none => rw [hl] at hC; cases hC
        | some l =>
            rw [hl] at hC
            cases hr : chains h fuel k (i + 1) with
            | none => rw [hr] at hC; cases hC
            | some r =>
                rw [hr] at hC
                cases hC
                have hs := scan_list_eq_find h asize fuel (segGet h i) l hl
                rw [hs]
                cases hfl : l.find? (fun b => decide (asize ≤ GET_SIZE h (HDRP b))) with
                | some bp =>
                    rw [find_append_some _ l r bp hfl]
                | none =>
                    rw [find_append_none _ l r hfl]
                    exact ih (i + 1) r hr

/-- C8: find_fit is first-fit in segregated-list order.  If walking the
buckets from the request's own bucket upward, each front-to-back, yields the
block list L (with the given link-following fuel), then find_fit returns
exactly the first element of L whose block size is at least the adjusted
request size, and a null result when L has no such element. -/
theorem C8_find_fit_first_fit (h : Heap) (asize fuel : Nat) (L : List Nat)
    (hC : chains h fuel 12 (find_bucket asize) = some L) :
    find_fit h asize fuel = some (L.find? fun b => asize ≤ GET_SIZE h (HDRP b)) :=
  find_fit_from_eq_chains h asize fuel 12 (find_bucket asize) L hC

/-- Witness for C8 on the heap directly after init: the bucket walk from
the request's bucket upward yields the single free block 4208, and find_fit
returns it. -/
theorem C8_find_fit_first_fit_witness :
    chains heap0 20 12 (find_bucket 48) = some [4208] ∧
    find_fit heap0 48 20
      = some ([4208].find? fun b => 48 ≤ GET_SIZE heap0 (HDRP b)) :=
  ⟨by decide, C8_find_fit_first_fit heap0 48 20 [4208] (by decide)⟩


/-! ## Alignment of block addresses and returned pointers (C10) -/

theorem PUT_heap_listp (h : Heap) (p v : Nat) :
    (PUT h p v).heap_listp = h.heap_listp := by
  dsimp only [PUT]

theorem PUT_brk (h : Heap) (p v : Nat) : (PUT h p v).brk = h.brk := by
  dsimp only [PUT]

theorem setPrevFree_heap_listp (h : Heap) (bp v : Nat) :
    (setPrevFree h bp v).heap_listp = h.heap_listp := by
  dsimp only [setPrevFree]

theorem setPrevFree_brk (h : Heap) (bp v : Nat) :
    (setPrevFree h bp v).brk = h.brk := by
  dsimp only [setPrevFree]

theorem setNextFree_heap_listp (h : Heap) (bp v : Nat) :
    (setNextFree h bp v).heap_listp = h.heap_listp := by
  dsimp only [setNextFree]

theorem setNextFree_brk (h : Heap) (bp v : Nat) :
    (setNextFree h bp v).brk = h.brk := by
  dsimp only [setNextFree]

theorem segSet_heap_listp (h : Heap) (i v : Nat) :
    (segSet h i v).heap_listp = h.heap_listp := by
  dsimp only [segSet]

theorem segSet_brk (h : Heap) (i v : Nat) : (segSet h i v).brk = h.brk := by
  dsimp only [segSet]

theorem remove_free_heap_listp (h : Heap) (bp : Nat) :
    (remove_free h bp).heap_listp = h.heap_listp := by
  simp only [remove_free]
  by_cases h1 : PREV_FREE h bp = 0 ∧ NEXT_FREE h bp = 0
  · rw [if_pos h1, segSet_heap_listp]
  rw [if_neg h1]
  by_cases h2 : PREV_FREE h bp = 0
  · rw [if_pos h2, segSet_heap_listp, setPrevFree_heap_listp]
  rw [if_neg h2]
  by_cases h3 : NEXT_FREE h bp = 0
  · rw [if_pos h3, setNextFree_heap_listp]
  · rw [if_neg h3, setPrevFree_heap_listp, setNextFree_heap_listp]

theorem remove_free_brk (h : Heap) (bp : Nat) :
    (remove_free h bp).brk = h.brk := by
  simp only [remove_free]
  by_cases h1 : PREV_FREE h bp = 0 ∧ NEXT_FREE h bp = 0
  · rw [if_pos h1, segSet_brk]
  rw [if_neg h1]
  by_cases h2 : PREV_FREE h bp = 0
  · rw [if_pos h2, segSet_brk, setPrevFree_brk]
  rw [if_neg h2]
  by_cases h3 : NEXT_FREE h bp = 0
  · rw [if_pos h3, setNextFree_brk]
  · rw [if_neg h3, setPrevFree_brk, setNextFree_brk]

theorem insert_free_heap_listp (h : Heap) (bp : Nat) :
    (insert_free h bp).heap_listp = h.heap_listp := by
  simp only [insert_free]
  by_cases hh : segGet h (find_bucket (GET_SIZE h (HDRP bp))) = 0
  · rw [if_pos hh, segSet_heap_listp, setNextFree_heap_listp, setPrevFree_heap_listp]
  · rw [if_neg hh, segSet_heap_listp, setPrevFree_heap_listp, setNextFree_heap_listp,
        setPrevFree_heap_listp]

theorem insert_free_brk (h : Heap) (bp : Nat) :
    (insert_free h bp).brk = h.brk := by
  simp only [insert_free]
  by_cases hh : segGet h (find_bucket (GET_SIZE h (HDRP bp))) = 0
  · rw [if_pos hh, segSet_brk, setNextFree_brk, setPrevFree_brk]
  · rw [if_neg hh, segSet_brk, setPrevFree_brk, setNextFree_brk, setPrevFree_brk]

theorem coalesce_fst_heap_listp (h : Heap) (bp : Nat) :
    ((coalesce h bp).1).heap_listp = h.heap_listp := by
  simp only [coalesce]
  split_ifs <;>
    simp only [insert_free_heap_listp, PUT_heap_listp, remove_free_heap_listp]

theorem coalesce_fst_brk (h : Heap) (bp : Nat) :
    ((coalesce h bp).1).brk = h.brk := by
  simp only [coalesce]
  split_ifs <;>
    simp only [insert_free_brk, PUT_brk, remove_free_brk]

theorem coalesce_snd_aligned (h : Heap) (bp : Nat) (hb : 8 ∣ bp) :
    8 ∣ (coalesce h bp).2 := by
  simp only [coalesce]
  split_ifs <;>
    first
      | exact hb
      | exact Nat.dvd_sub' hb (GET_SIZE_dvd _ _)

theorem place_heap_listp (h : Heap) (bp asize : Nat) :
    (place h bp asize).heap_listp = h.heap_listp := by
  simp only [place]
  split_ifs <;>
    simp only [insert_free_heap_listp, PUT_heap_listp, remove_free_heap_listp]

theorem place_brk (h : Heap) (bp asize : Nat) :
    (place h bp asize).brk = h.brk := by
  simp only [place]
  split_ifs <;>
    simp only [insert_free_brk, PUT_brk, remove_free_brk]

theorem mem_sbrk_fst_heap_listp (h : Heap) (incr : Nat) :
    ((mem_sbrk h incr).1).heap_listp = h.heap_listp := by
  simp only [mem_sbrk]
  split_ifs <;> rfl

theorem mem_sbrk_fst_brk (h : Heap) (incr : Nat) :
    ((mem_sbrk h incr).1).brk = h.brk ∨ ((mem_sbrk h incr).1).brk = h.brk + incr := by
  simp only [mem_sbrk]
  split_ifs
  · left; rfl
  · right; rfl

theorem mem_sbrk_some (h : Heap) (i : Nat) (h1 : Heap) (b : Nat)
    (hm : mem_sbrk h i = (h1, some b)) :
    b = h.brk ∧ h1.brk = h.brk + i ∧ h1.heap_listp = h.heap_listp ∧
      h1.seg_free = h.seg_free := by
  simp only [mem_sbrk] at hm
  split_ifs at hm
  · exact absurd (congrArg Prod.snd hm) (by simp)
  · simp only [Prod.mk.injEq, Option.some.injEq] at hm
    obtain ⟨he, hv⟩ := hm
    subst he
    exact ⟨hv.symm, rfl, rfl, rfl⟩

theorem extend_heap_fst_heap_listp (h : Heap) (w : Nat) :
    ((extend_heap h w).1).heap_listp = h.heap_listp := by
  simp only [extend_heap]
  rcases hms : mem_sbrk h ((if w % 2 = 1 then (w + 1) * 4 else w * 4) % 2 ^ 64)
    with ⟨h1, r⟩
  have h2 := mem_sbrk_fst_heap_listp h ((if w % 2 = 1 then (w + 1) * 4 else w * 4) % 2 ^ 64)
  rw [hms] at h2
  cases r with
  | none => exact h2
  | some bp => simp only [coalesce_fst_heap_listp, PUT_heap_listp]; exact h2

theorem extend_heap_fst_brk_dvd (h : Heap) (w : Nat) (hb : 8 ∣ h.brk) :
    8 ∣ ((extend_heap h w).1).brk := by
  have hsz : 8 ∣ ((if w % 2 = 1 then (w + 1) * 4 else w * 4) % 2 ^ 64) := by
    rcases Nat.mod_two_eq_zero_or_one w with hw | hw
    · rw [if_neg (by omega)]; omega
    · rw [if_pos hw]; omega
  simp only [extend_heap]
  rcases hms : mem_sbrk h ((if w % 2 = 1 then (w + 1) * 4 else w * 4) % 2 ^ 64)
    with ⟨h1, r⟩
  have hb1 := mem_sbrk_fst_brk h ((if w % 2 = 1 then (w + 1) * 4 else w * 4) % 2 ^ 64)
  rw [hms] at hb1
  cases r with
  | none =>
      rcases hb1 with e | e <;> rw [e]
      · exact hb
      · omega
  | some bp =>
      simp only [coalesce_fst_brk, PUT_brk]
      rcases hb1 with e | e <;> rw [e]
      · exact hb
      · omega

theorem extend_heap_ret_aligned (h : Heap) (w : Nat) (h1 : Heap) (bp : Nat)
    (hb : 8 ∣ h.brk) (hex : extend_heap h w = (h1, some bp)) : 8 ∣ bp := by
  simp only [extend_heap] at hex
  rcases hms : mem_sbrk h ((if w % 2 = 1 then (w + 1) * 4 else w * 4) % 2 ^ 64)
    with ⟨hA, r⟩
  rw [hms] at hex
  cases r with
  | none => exact absurd (congrArg Prod.snd hex) (by simp)
  | some b0 =>
      obtain ⟨hb0, -, -, -⟩ := mem_sbrk_some h _ hA b0 hms
      have h2e := congrArg Prod.snd hex
      simp only [Option.some.injEq] at h2e
      rw [← h2e]
      exact coalesce_snd_aligned _ b0 (by rw [hb0]; exact hb)

theorem setBuckets_heap_listp (h : Heap) (n : Nat) :
    (setBuckets h n).heap_listp = h.heap_listp := by
  induction n with
  | zero => rfl
  | succ n ih => rw [show setBuckets h (n + 1) = segSet (setBuckets h n) n 0 from rfl,
                     segSet_heap_listp, ih]

theorem setBuckets_brk (h : Heap) (n : Nat) :
    (setBuckets h n).brk = h.brk := by
  induction n with
  | zero => rfl
  | succ n ih => rw [show setBuckets h (n + 1) = segSet (setBuckets h n) n 0 from rfl,
                     segSet_brk, ih]

theorem mm_init_reach_inv (env h : Heap) (hb : 8 ∣ env.brk)
    (hi : mm_init env = (h, true)) :
    h.heap_listp ≠ 0 ∧ 8 ∣ h.heap_listp ∧ 8 ∣ h.brk := by
  simp only [mm_init] at hi
  split at hi
  · exact absurd (congrArg Prod.snd hi) (by simp)
  · rename_i h1 base heq
    obtain ⟨hbase, hbrk1, hlp1, -⟩ := mem_sbrk_some env 112 h1 base heq
    split at hi
    · exact absurd (congrArg Prod.snd hi) (by simp)
    · rename_i h9 x heq2
      have hh : h9 = h := congrArg Prod.fst hi
      subst hh
      have elp := congrArg (fun z : Heap × Option Nat => z.1.heap_listp) heq2
      have ebk := congrArg (fun z : Heap × Option Nat => z.1.brk) heq2
      simp only at elp ebk
      refine ⟨?_, ?_, ?_⟩
      · rw [← elp, extend_heap_fst_heap_listp]
        show base + 96 + 8 ≠ 0
        omega
      · rw [← elp, extend_heap_fst_heap_listp]
        show 8 ∣ base + 96 + 8
        omega
      · rw [← ebk]
        apply extend_heap_fst_brk_dvd
        dsimp only
        rw [PUT_brk, PUT_brk, PUT_brk, PUT_brk, setBuckets_brk]
        dsimp only
        omega


theorem mm_malloc_state (h : Heap) (size fuel : Nat) (h' : Heap) (p : Nat)
    (hl0 : h.heap_listp ≠ 0) (hm : mm_malloc h size fuel = some (h', p)) :
    h'.heap_listp = h.heap_listp ∧ (8 ∣ h.brk → 8 ∣ h'.brk) := by
  simp only [mm_malloc] at hm
  rw [if_neg hl0] at hm
  by_cases hs : size = 0
  · rw [if_pos hs] at hm
    simp only [Option.some.injEq, Prod.mk.injEq] at hm
    obtain ⟨rfl, rfl⟩ := hm
    exact ⟨rfl, fun hb => hb⟩
  · rw [if_neg hs] at hm
    split at hm
    · cases hm
    · rename_i bp heq
      simp only [Option.some.injEq, Prod.mk.injEq] at hm
      obtain ⟨rfl, rfl⟩ := hm
      refine ⟨place_heap_listp h bp (adjust_size size), fun hb => ?_⟩
      rw [place_brk]
      exact hb
    · rename_i heq
      split at hm
      · rename_i h1 heq2
        simp only [Option.some.injEq, Prod.mk.injEq] at hm
        obtain ⟨rfl, rfl⟩ := hm
        have elp := congrArg (fun z : Heap × Option Nat => z.1.heap_listp) heq2
        simp only at elp
        rw [extend_heap_fst_heap_listp] at elp
        have ebk := congrArg (fun z : Heap × Option Nat => z.1.brk) heq2
        simp only at ebk
        refine ⟨elp.symm, fun hb => ?_⟩
        rw [← ebk]
        exact extend_heap_fst_brk_dvd h _ hb
      · rename_i h1 bp heq2
        simp only [Option.some.injEq, Prod.mk.injEq] at hm
        obtain ⟨rfl, rfl⟩ := hm
        have elp := congrArg (fun z : Heap × Option Nat => z.1.heap_listp) heq2
        simp only at elp
        rw [extend_heap_fst_heap_listp] at elp
        have ebk := congrArg (fun z : Heap × Option Nat => z.1.brk) heq2
        simp only at ebk
        refine ⟨?_, fun hb => ?_⟩
        · rw [place_heap_listp, ← elp]
        · rw [place_brk, ← ebk]
          exact extend_heap_fst_brk_dvd h _ hb

theorem mm_free_state (h : Heap) (bp : Nat) (hl0 : h.heap_listp ≠ 0) :
    (mm_free h bp).heap_listp = h.heap_listp ∧ (mm_free h bp).brk = h.brk := by
  simp only [mm_free]
  by_cases hb : bp = 0
  · rw [if_pos hb]
    exact ⟨rfl, rfl⟩
  · rw [if_neg hb, if_neg hl0]
    constructor
    · split
      · rw [insert_free_heap_listp, PUT_heap_listp, PUT_heap_listp]
      · rw [coalesce_fst_heap_listp, PUT_heap_listp, PUT_heap_listp]
    · split
      · rw [insert_free_brk, PUT_brk, PUT_brk]
      · rw [coalesce_fst_brk, PUT_brk, PUT_brk]

theorem mm_realloc_state (h : Heap) (ptr size fuel : Nat) (h' : Heap) (p c : Nat)
    (hl0 : h.heap_listp ≠ 0)
    (hm : mm_realloc h ptr size fuel = some (h', p, c)) :
    h'.heap_listp = h.heap_listp ∧ (8 ∣ h.brk → 8 ∣ h'.brk) := by
  simp only [mm_realloc] at hm
  by_cases hs : size = 0
  · rw [if_pos hs] at hm
    simp only [Option.some.injEq, Prod.mk.injEq] at hm
    obtain ⟨rfl, rfl, rfl⟩ := hm
    obtain ⟨e1, e2⟩ := mm_free_state h ptr hl0
    refine ⟨e1, fun hb => ?_⟩
    rw [e2]
    exact hb
  · rw [if_neg hs] at hm
    by_cases hp : ptr = 0
    · rw [if_pos hp] at hm
      rcases hmm : mm_malloc h size fuel with _ | ⟨h1, q⟩
      · rw [hmm] at hm
        simp at hm
      · rw [hmm] at hm
        simp only [Option.map_some', Option.some.injEq, Prod.mk.injEq] at hm
        obtain ⟨rfl, rfl, rfl⟩ := hm
        exact mm_malloc_state h size fuel h1 q hl0 hmm
    · rw [if_neg hp] at hm
      split at hm
      · cases hm
      · rename_i h1 np heq
        obtain ⟨e1, e2⟩ := mm_malloc_state h size fuel h1 np hl0 heq
        by_cases hnp : np = 0
        · rw [if_pos hnp] at hm
          simp only [Option.some.injEq, Prod.mk.injEq] at hm
          obtain ⟨rfl, rfl, rfl⟩ := hm
          exact ⟨e1, e2⟩
        · rw [if_neg hnp] at hm
          simp only [Option.some.injEq, Prod.mk.injEq] at hm
          obtain ⟨rfl, rfl, rfl⟩ := hm
          have hl1 : h1.heap_listp ≠ 0 := by rw [e1]; exact hl0
          obtain ⟨f1, f2⟩ := mm_free_state h1 ptr hl1
          refine ⟨by rw [f1, e1], fun hb => ?_⟩
          rw [f2]
          exact e2 hb

theorem Reach_inv (h : Heap) (hr : Reach h) :
    h.heap_listp ≠ 0 ∧ 8 ∣ h.heap_listp ∧ 8 ∣ h.brk := by
  induction hr with
  | init env h0 hb hi => exact mm_init_reach_inv env h0 hb hi
  | step_malloc h0 h1 size fuel p hr0 hmx ih =>
      obtain ⟨a1, a2, a3⟩ := ih
      obtain ⟨e1, e2⟩ := mm_malloc_state h0 size fuel h1 p a1 hmx
      exact ⟨by rw [e1]; exact a1, by rw [e1]; exact a2, e2 a3⟩
  | step_free h0 bp hr0 ih =>
      obtain ⟨a1, a2, a3⟩ := ih
      obtain ⟨e1, e2⟩ := mm_free_state h0 bp a1
      exact ⟨by rw [e1]; exact a1, by rw [e1]; exact a2, by rw [e2]; exact a3⟩
  | step_realloc h0 h1 ptr size fuel p c hr0 hmx ih =>
      obtain ⟨a1, a2, a3⟩ := ih
      obtain ⟨e1, e2⟩ := mm_realloc_state h0 ptr size fuel h1 p c a1 hmx
      exact ⟨by rw [e1]; exact a1, by rw [e1]; exact a2, e2 a3⟩

theorem blockAddrs_aligned (h : Heap) :
    ∀ fuel bp, 8 ∣ bp → ∀ q ∈ blockAddrs h fuel bp, 8 ∣ q := by
  intro fuel
  induction fuel with
  | zero =>
      intro bp _ q hq
      rw [show blockAddrs h 0 bp = [] from rfl] at hq
      exact absurd hq (List.not_mem_nil q)
  | succ f ih =>
      intro bp hbp q hq
      rw [show blockAddrs h (f + 1) bp =
            (if GET_SIZE h (HDRP bp) = 0 then []
             else bp :: blockAddrs h f (NEXT_BLKP h bp)) from rfl] at hq
      by_cases hz : GET_SIZE h (HDRP bp) = 0
      · rw [if_pos hz] at hq
        exact absurd hq (List.not_mem_nil q)
      · rw [if_neg hz] at hq
        rcases List.mem_cons.mp hq with rfl | hq2
        · exact hbp
        · refine ih (NEXT_BLKP h bp) ?_ q hq2
          have hd := GET_SIZE_dvd h (bp - 4)
          simp only [NEXT_BLKP]
          omega


theorem mm_malloc_ret_aligned (h : Heap) (size fuel : Nat) (h' : Heap) (p : Nat)
    (L : List Nat)
    (hl0 : h.heap_listp ≠ 0) (hbrk : 8 ∣ h.brk)
    (hC : chains h fuel 12 (find_bucket (adjust_size size)) = some L)
    (hal : ∀ b ∈ L, 8 ∣ b)
    (hm : mm_malloc h size fuel = some (h', p)) :
    p = 0 ∨ 8 ∣ p := by
  have hff : find_fit h (adjust_size size) fuel
      = some (L.find? fun b => adjust_size size ≤ GET_SIZE h (HDRP b)) :=
    find_fit_from_eq_chains h (adjust_size size) fuel 12 (find_bucket (adjust_size size)) L hC
  simp only [mm_malloc] at hm
  rw [if_neg hl0] at hm
  by_cases hs : size = 0
  · rw [if_pos hs] at hm
    simp only [Option.some.injEq, Prod.mk.injEq] at hm
    obtain ⟨rfl, rfl⟩ := hm
    left
    rfl
  · rw [if_neg hs] at hm
    split at hm
    · cases hm
    · rename_i bp heq
      simp only [Option.some.injEq, Prod.mk.injEq] at hm
      obtain ⟨rfl, rfl⟩ := hm
      right
      rw [heq] at hff
      simp only [Option.some.injEq] at hff
      exact hal bp (List.mem_of_find?_eq_some hff.symm)
    · rename_i heq
      split at hm
      · rename_i h1 heq2
        simp only [Option.some.injEq, Prod.mk.injEq] at hm
        obtain ⟨rfl, rfl⟩ := hm
        left
        rfl
      · rename_i h1 bp heq2
        simp only [Option.some.injEq, Prod.mk.injEq] at hm
        obtain ⟨rfl, rfl⟩ := hm
        right
        exact extend_heap_ret_aligned h _ h1 bp hbrk heq2

theorem mm_realloc_ret_aligned (h : Heap) (ptr size fuel : Nat) (h' : Heap)
    (p c : Nat) (L : List Nat)
    (hl0 : h.heap_listp ≠ 0) (hbrk : 8 ∣ h.brk)
    (hC : chains h fuel 12 (find_bucket (adjust_size size)) = some L)
    (hal : ∀ b ∈ L, 8 ∣ b)
    (hm : mm_realloc h ptr size fuel = some (h', p, c)) :
    p = 0 ∨ 8 ∣ p := by
  simp only [mm_realloc] at hm
  by_cases hs : size = 0
  · rw [if_pos hs] at hm
    simp only [Option.some.injEq, Prod.mk.injEq] at hm
    obtain ⟨rfl, rfl, rfl⟩ := hm
    left
    rfl
  · rw [if_neg hs] at hm
    by_cases hp : ptr = 0
    · rw [if_pos hp] at hm
      rcases hmm : mm_malloc h size fuel with _ | ⟨h1, q⟩
      · rw [hmm] at hm
        simp at hm
      · rw [hmm] at hm
        simp only [Option.map_some', Option.some.injEq, Prod.mk.injEq] at hm
        obtain ⟨rfl, rfl, rfl⟩ := hm
        exact mm_malloc_ret_aligned h size fuel h1 q L hl0 hbrk hC hal hmm
    · rw [if_neg hp] at hm
      split at hm
      · cases hm
      · rename_i h1 np heq
        by_cases hnp : np = 0
        · rw [if_pos hnp] at hm
          simp only [Option.some.injEq, Prod.mk.injEq] at hm
          obtain ⟨rfl, rfl, rfl⟩ := hm
          left
          rfl
        · rw [if_neg hnp] at hm
          simp only [Option.some.injEq, Prod.mk.injEq] at hm
          obtain ⟨rfl, rfl, rfl⟩ := hm
          exact mm_malloc_ret_aligned h size fuel h1 np L hl0 hbrk hC hal heq

/-- C10: alignment.  In every state reachable from a successful init, (1)
every size read through a boundary tag is a multiple of 8 (the low three
bits are masked off exactly as GET_SIZE does), (2) every block start
address visited by the block walk from heap_listp is 8-byte aligned, and
(3)–(4) every pointer returned by a successful malloc or realloc whose
free-list scan order is a list of 8-aligned blocks is null or 8-byte
aligned. -/
theorem C10_reachable_alignment (h : Heap) (hr : Reach h) :
    (∀ p, 8 ∣ GET_SIZE h p) ∧
    (∀ fuel bp, bp ∈ blockAddrs h fuel h.heap_listp → 8 ∣ bp) ∧
    (∀ size fuel h' p L,
        chains h fuel 12 (find_bucket (adjust_size size)) = some L →
        (∀ b ∈ L, 8 ∣ b) →
        mm_malloc h size fuel = some (h', p) → p = 0 ∨ 8 ∣ p) ∧
    (∀ ptr size fuel h' p c L,
        chains h fuel 12 (find_bucket (adjust_size size)) = some L →
        (∀ b ∈ L, 8 ∣ b) →
        mm_realloc h ptr size fuel = some (h', p, c) → p = 0 ∨ 8 ∣ p) := by
  obtain ⟨hl0, hlp, hbrk⟩ := Reach_inv h hr
  refine ⟨fun p => GET_SIZE_dvd h p,
    fun fuel bp hbp => blockAddrs_aligned h fuel h.heap_listp hlp bp hbp, ?_, ?_⟩
  · intro size fuel h' p L hC hal hm
    exact mm_malloc_ret_aligned h size fuel h' p L hl0 hbrk hC hal hm
  · intro ptr size fuel h' p c L hC hal hm
    exact mm_realloc_ret_aligned h ptr size fuel h' p c L hl0 hbrk hC hal hm

/-- Witness for C10 at the state directly after a successful init from the
concrete arena env0. -/
theorem C10_reachable_alignment_witness :
    (∀ p, 8 ∣ GET_SIZE heap0 p) ∧
    (∀ fuel bp, bp ∈ blockAddrs heap0 fuel heap0.heap_listp → 8 ∣ bp) ∧
    (∀ size fuel h' p L,
        chains heap0 fuel 12 (find_bucket (adjust_size size)) = some L →
        (∀ b ∈ L, 8 ∣ b) →
        mm_malloc heap0 size fuel = some (h', p) → p = 0 ∨ 8 ∣ p) ∧
    (∀ ptr size fuel h' p c L,
        chains heap0 fuel 12 (find_bucket (adjust_size size)) = some L →
        (∀ b ∈ L, 8 ∣ b) →
        mm_realloc heap0 ptr size fuel = some (h', p, c) → p = 0 ∨ 8 ∣ p) :=
  C10_reachable_alignment heap0
    (Reach.init env0 heap0 (by decide) (Prod.ext_iff.mpr ⟨rfl, by decide⟩))

end MM
